import Mathlib

/-!
Verification development for the py-wsic repository (a SIC-style assembler,
object-program codec, loader and simulator).

The Python source is shallowly embedded: ctypes structures become Lean
structures over `Nat` bytes, Python `int` becomes `Int`/`Nat` (Python ints are
unbounded; ctypes fields truncate, modelled with explicit `% 256` / `% 65536`),
and code that can raise becomes `Except String`.  Each definition mirrors one
Python function or class of the source; deviations forced by the embedding are
noted in comments next to the definition.
-/

set_option maxRecDepth 2000

namespace Wsic

instance {ε α : Type} [DecidableEq ε] [DecidableEq α] : DecidableEq (Except ε α) :=
  fun a b =>
    match a, b with
    | .error x, .error y =>
      if h : x = y then isTrue (by rw [h])
      else isFalse (by intro hc; cases hc; exact h rfl)
    | .ok x, .ok y =>
      if h : x = y then isTrue (by rw [h])
      else isFalse (by intro hc; cases hc; exact h rfl)
    | .error _, .ok _ => isFalse (by intro hc; cases hc)
    | .ok _, .error _ => isFalse (by intro hc; cases hc)

/-! ## `common/object_program.py`: `UInt24` and `Int24`

Both ctypes structures have three `c_uint8` fields `byte1`, `byte2`, `byte3`
laid out in that order in memory.  `from_int` stores the most significant
byte in `byte1` (the first byte in memory), so the in-memory serialization of
these 24-bit fields is big-endian.  -/

structure UInt24 where
  byte1 : Nat
  byte2 : Nat
  byte3 : Nat
deriving Repr, DecidableEq

/-- `UInt24.from_int`: raises `ValueError` outside `[0, 0xFFFFFF]`. -/
def UInt24.from_int (value : Int) : Except String UInt24 :=
  if 0 ≤ value ∧ value ≤ 0xFFFFFF then
    .ok ⟨(value.toNat >>> 16) &&& 0xFF, (value.toNat >>> 8) &&& 0xFF,
         value.toNat &&& 0xFF⟩
  else .error "Value must be in the range 0 to 16777215 (0xFFFFFF)"

/-- `UInt24.to_int`: `(byte1 << 16) | (byte2 << 8) | byte3`. -/
def UInt24.to_int (u : UInt24) : Nat :=
  (u.byte1 <<< 16) ||| (u.byte2 <<< 8) ||| u.byte3

/-- The three bytes of a `UInt24` in serialization (memory) order. -/
def UInt24.toBytes (u : UInt24) : List Nat := [u.byte1, u.byte2, u.byte3]

structure Int24 where
  byte1 : Nat
  byte2 : Nat
  byte3 : Nat
deriving Repr, DecidableEq

/-- `Int24.from_int`: raises `ValueError` outside `[-0x800000, 0x7FFFFF]`.  The
byte extraction `(value >> i) & 0xFF` on Python ints (arithmetic shift, and a
`&` that always yields a nonnegative result) equals extracting the bytes of
`value mod 2^24`, which is how it is written here. -/
def Int24.from_int (value : Int) : Except String Int24 :=
  if -0x800000 ≤ value ∧ value ≤ 0x7FFFFF then
    let u : Nat := (value.emod 0x1000000).toNat
    .ok ⟨(u >>> 16) &&& 0xFF, (u >>> 8) &&& 0xFF, u &&& 0xFF⟩
  else .error "Value must be in the range -8388608 to 8388607"

/-- `Int24.to_int`: reassemble and sign-correct. -/
def Int24.to_int (i : Int24) : Int :=
  let v : Nat := (i.byte1 <<< 16) ||| (i.byte2 <<< 8) ||| i.byte3
  if v ≥ 0x800000 then (v : Int) - 0x1000000 else (v : Int)

/-- `UInt24.from_buffer(Int24)`: both structures have the identical 3-byte
layout, so reinterpreting just transports the bytes. -/
def Int24.toUInt24 (i : Int24) : UInt24 := ⟨i.byte1, i.byte2, i.byte3⟩

/-- `Int24.from_buffer(UInt24)`: byte-identical reinterpretation. -/
def UInt24.toInt24 (u : UInt24) : Int24 := ⟨u.byte1, u.byte2, u.byte3⟩

/-! ## `common/optable.py`: mnemonics and opcode numbering

`new_code()` hands out sequential opcode values starting at 0 in the order the
`OpcodeTable` enum members are declared. -/

inductive Mnemonic where
  | LDA | LDCH | LDX | LDL | LDS
  | STA | STCH | STX | STL | STS
  | COMP | TIX | ADD | SUB
  | J | JEQ | JLT | JGT | JSUB | RSUB
  | RD | WD | HLT | NOP
deriving Repr, DecidableEq

/-- The numeric opcode of each mnemonic, per the `new_code()` declaration
order in `OpcodeTable`. -/
def opcodeNum : Mnemonic → Nat
  | .LDA => 0 | .LDCH => 1 | .LDX => 2 | .LDL => 3 | .LDS => 4
  | .STA => 5 | .STCH => 6 | .STX => 7 | .STL => 8 | .STS => 9
  | .COMP => 10 | .TIX => 11 | .ADD => 12 | .SUB => 13
  | .J => 14 | .JEQ => 15 | .JLT => 16 | .JGT => 17 | .JSUB => 18 | .RSUB => 19
  | .RD => 20 | .WD => 21 | .HLT => 22 | .NOP => 23

/-- The `has_operand` flag of each `OpcodeItem` (defaults to `True`; `RSUB`,
`RD`, `WD`, `HLT`, `NOP` pass `False`). -/
def hasOperand : Mnemonic → Bool
  | .RSUB | .RD | .WD | .HLT | .NOP => false
  | _ => true

/-- `code_lut`: numeric opcode back to the table entry. -/
def code_lut (code : Nat) : Option Mnemonic :=
  match code with
  | 0 => some .LDA | 1 => some .LDCH | 2 => some .LDX | 3 => some .LDL
  | 4 => some .LDS | 5 => some .STA | 6 => some .STCH | 7 => some .STX
  | 8 => some .STL | 9 => some .STS | 10 => some .COMP | 11 => some .TIX
  | 12 => some .ADD | 13 => some .SUB | 14 => some .J | 15 => some .JEQ
  | 16 => some .JLT | 17 => some .JGT | 18 => some .JSUB | 19 => some .RSUB
  | 20 => some .RD | 21 => some .WD | 22 => some .HLT | 23 => some .NOP
  | _ => none

/-! ## `common/object_program.py`: `SICFormatObjectCode`

Layout: one `c_uint8` opcode byte, then a `c_uint16` field `_ia` that is
genuinely little-endian in memory (the only little-endian multi-byte field in
the object format).  The high bit of `_ia` is the indexed flag, the low 15
bits the address.  `create` performs no range check: the ctypes field
assignments truncate `opcode` mod 2^8 and `ia` mod 2^16 (written with
`Int.emod` since a ctypes unsigned field stores the representative in
`[0, 2^16)`).  Python's `|` on ints is `Int.lor`. -/

structure SICFormatObjectCode where
  opcode : Nat
  _ia : Nat
deriving Repr, DecidableEq

/-- `SICFormatObjectCode.create(op, address, indexed)`:
`ia = address | (0x8000 if indexed else 0)`, stored through a `c_uint16`. -/
def SICFormatObjectCode.create (op : Mnemonic) (address : Int)
    (indexed : Bool := false) : SICFormatObjectCode :=
  let ia : Int := Int.lor address (if indexed then 0x8000 else 0)
  { opcode := opcodeNum op % 256, _ia := (ia.emod 65536).toNat }

/-- Property `indexed`: `(self._ia & 0x8000) != 0`. -/
def SICFormatObjectCode.indexed (c : SICFormatObjectCode) : Bool :=
  (c._ia &&& 0x8000) != 0

/-- Property `address`: `self._ia & 0x7FFF`. -/
def SICFormatObjectCode.address (c : SICFormatObjectCode) : Nat :=
  c._ia &&& 0x7FFF

/-- The 3 bytes of an instruction word as serialized: opcode byte, then the
little-endian bytes of the `c_uint16` field `_ia`. -/
def SICFormatObjectCode.toBytes (c : SICFormatObjectCode) : List Nat :=
  [c.opcode, c._ia % 256, c._ia / 256 % 256]

/-! ## Object records and their byte-stream decoding

`sim/loader.py` reads the object file as raw bytes and decodes fixed-layout
ctypes records from it (`parse_record`).  With `_pack_ = 1` the serialized
sizes are: Header 13 bytes, Text 5, End 4, Modification 5.  A byte stream is
a `List Nat` of values below 256. -/

inductive ObjectRecord where
  | header (program_name : List Nat) (starting_address : UInt24)
      (program_length : UInt24)
  | text (starting_address : UInt24) (length : Nat)
  | endRec (exec_address : UInt24)
  | modification (address : UInt24) (length : Nat)
deriving Repr, DecidableEq

/-- Three consecutive bytes of a stream viewed as the `UInt24` field that
`from_buffer_copy` would fill (`byte1` first in memory). -/
def u24At (l : List Nat) (i : Nat) : UInt24 :=
  ⟨l.getD i 0, l.getD (i + 1) 0, l.getD (i + 2) 0⟩

/-- `parse_record(buffer)` from `sim/loader.py`: match the first byte against
the record IDs in the order Header (0), Text (1), End (2), Modification (3);
`from_buffer_copy(buffer[0:record_size])` raises `ValueError` when fewer than
`record_size` bytes remain; an unmatched first byte (or an empty buffer)
raises `ValueError: Unknown record type`. -/
def parse_record (buffer : List Nat) : Except String (ObjectRecord × List Nat) :=
  match buffer with
  | [] => .error "Unknown record type"
  | b :: _ =>
    if b = 0 then
      if 13 ≤ buffer.length then
        .ok (.header ((buffer.drop 1).take 6) (u24At buffer 7) (u24At buffer 10),
             buffer.drop 13)
      else .error "Buffer size too small"
    else if b = 1 then
      if 5 ≤ buffer.length then
        .ok (.text (u24At buffer 1) (buffer.getD 4 0), buffer.drop 5)
      else .error "Buffer size too small"
    else if b = 2 then
      if 4 ≤ buffer.length then
        .ok (.endRec (u24At buffer 1), buffer.drop 4)
      else .error "Buffer size too small"
    else if b = 3 then
      if 5 ≤ buffer.length then
        .ok (.modification (u24At buffer 1) (buffer.getD 4 0), buffer.drop 5)
      else .error "Buffer size too small"
    else .error "Unknown record type"

/-! ## `sim/loader.py`: `load_program`

Memory is the numpy uint8 memmap, modelled as a total function `Nat → Nat`
together with its size (`memory.shape[0]`, 0x7FFF in `sim/__main__.py`).
A numpy basic slice `memory[lo:hi]` clips `lo` and `hi` to the array size;
assigning a list to it requires the list length to equal the slice length
(or be 1, which numpy broadcasts).

The Modification branch of the source is unexecutable past its memory read:
`UInt24.from_buffer_copy` over the selected slice raises `ValueError`
whenever the slice holds fewer than 3 bytes (every record the assembler
emits carries `length=2`), and when 3 or more bytes are available the
subsequent `UInt24(cur_addr).to_bytes()` raises `AttributeError` because
ctypes structures have no `to_bytes` method.  Both outcomes are embedded as
errors; the memory read preceding them has no observable effect. -/

/-- Overwrite `bytes.length` cells of `mem` starting at `start`. -/
def writeBytes (mem : Nat → Nat) (start : Nat) (bs : List Nat) : Nat → Nat :=
  fun a => if start ≤ a ∧ a < start + bs.length then bs.getD (a - start) (mem a) else mem a

structure LoadResult where
  mem : Nat → Nat
  exec_address : Nat
  terminal_address : Nat

/-- One `while data:` loop of `load_program`, with `fuel` bounding the number
of iterations.  `load_program` supplies `fuel := data.length`; each iteration
consumes at least 4 bytes of `data`, so the fuel branch is unreachable. -/
def load_loop (memSize start_location : Nat) :
    Nat → (Nat → Nat) → Bool → Nat → Nat → List Nat → Except String LoadResult
  | _, _, _, _, _, [] => .error "End record not found"
  | 0, _, _, _, _, _ :: _ => .error "Loader loop fuel exhausted"
  | fuel + 1, mem, headerSeen, exec, term, d :: ds =>
    match parse_record (d :: ds) with
    | .error e => .error e
    | .ok (rec, rest) =>
      match rec with
      | .header _ sa pl =>
        if memSize < sa.to_int + pl.to_int then
          .error "End of program address exceeds memory size"
        else
          load_loop memSize start_location fuel mem true exec
            (start_location + sa.to_int + pl.to_int) rest
      | .text sa len =>
        match headerSeen with
        | false => .error "Header record not found before text record"
        | true =>
          let payload := rest.take len
          let lo := min (start_location + sa.to_int) memSize
          let hi := min (start_location + sa.to_int + len) memSize
          if payload.length = hi - lo then
            load_loop memSize start_location fuel (writeBytes mem lo payload)
              headerSeen exec term (rest.drop len)
          else if payload.length = 1 then
            load_loop memSize start_location fuel
              (writeBytes mem lo (List.replicate (hi - lo) (payload.getD 0 0)))
              headerSeen exec term (rest.drop len)
          else .error "could not broadcast input array"
      | .endRec ea =>
        match headerSeen with
        | false => .error "Header record not found before text record"
        | true => .ok ⟨mem, ea.to_int, term⟩
      | .modification addr len =>
        match headerSeen with
        | false => .error "Header record not found before text record"
        | true =>
          let lo := min (start_location + addr.to_int) memSize
          let hi := min (start_location + addr.to_int + len) memSize
          if hi - lo < 3 then .error "Buffer size too small"
          else .error "UInt24 object has no attribute to_bytes"

/-- `load_program(memory, program, start_location)`: replay the record stream
into memory, returning the execution address and the terminal address. -/
def load_program (memSize : Nat) (mem : Nat → Nat) (data : List Nat)
    (start_location : Nat) : Except String LoadResult :=
  load_loop memSize start_location data.length mem false 0 0 data

/-- A concrete object program: Header (name `PGM`, start 0x001000, length
0x11) followed by one Modification record (address 0x001001, length 2), the
length the assembler always emits. -/
def progWithModification : List Nat :=
  [0, 80, 71, 77, 0, 0, 0, 0, 16, 0, 0, 0, 17] ++ [3, 0, 16, 1, 2]

/-- A concrete object program with just a Header (name `TEST01`, start
0x001000, length 0x11) and an End record (execution address 0x001000). -/
def progHeaderEnd : List Nat :=
  [0, 84, 69, 83, 84, 48, 49, 0, 16, 0, 0, 0, 17] ++ [2, 0, 16, 0]

/-! ## `common/reg.py` and the simulator state

The register dict of `sim/__main__.py` maps each `Registers` member to a
`UInt24`; it is modelled as a structure with one field per register.  The
console is part of the state: `input` holds the byte codes of the characters
waiting on stdin (assumed ASCII, so `ch.encode()` is the single byte), and
`output` records the accumulator snapshots printed by `WD` (Python decodes
`bytes(A)` before printing; the raw 3 bytes are recorded here, and the
decode step is not modelled — no claim concerns `WD`'s output encoding). -/

structure RegFile where
  A : UInt24
  X : UInt24
  L : UInt24
  PC : UInt24
  SW : UInt24
  S : UInt24
deriving Repr, DecidableEq

structure SimState where
  regs : RegFile
  mem : Nat → Nat
  input : List Nat
  output : List UInt24

/-- Outcome of one trip through the `while True:` loop of `sim/__main__.py`:
continue with a new state, stop because `halt_effect` raised
`KeyboardInterrupt` (which the loop catches), stop with the
unknown-opcode message, or crash with an uncaught exception. -/
inductive StepOutcome where
  | next (s : SimState)
  | halted
  | unknownOpcode (code : Nat)
  | error (msg : String)

/-- `get_word(memory, address)` from `common/optable.py`: the 3 bytes at
`address` as a `UInt24` (numpy slices shorter than 3 near the end of memory,
which would make `from_buffer_copy` raise, are not modelled: memory is a
total function here). -/
def get_word (mem : Nat → Nat) (address : Nat) : UInt24 :=
  ⟨mem address, mem (address + 1), mem (address + 2)⟩

/-- The lambda the opcode table passes to `make_arithmetic_effect` for
`ADD`. -/
def addLambda : Int → Int → Int := fun a b => a + b

/-- The lambda the opcode table passes to `make_arithmetic_effect` for
`SUB`. -/
def subLambda : Int → Int → Int := fun a b => a - b

/-- `make_arithmetic_effect(fn)` from `common/optable.py`: the accumulator is
read with `UInt24.to_int` (unsigned), the memory word is reinterpreted as
`Int24` (signed); `Int24.from_int(result)` raises outside the signed 24-bit
range, otherwise the accumulator receives the result's bytes. -/
def make_arithmetic_effect (fn : Int → Int → Int) (regs : RegFile)
    (mem : Nat → Nat) (decoded_address : Nat) : Except String RegFile :=
  let a : Nat := regs.A.to_int
  let v : Int := (get_word mem decoded_address).toInt24.to_int
  match Int24.from_int (fn (a : Int) v) with
  | .ok r => .ok { regs with A := r.toUInt24 }
  | .error e => .error e

/-- `compare_effect`: the status word set from comparing `r.to_int()` with
`v.to_int()` (both unsigned).  `UInt24.from_int(0/1/2)` always succeeds and
yields these byte triples. -/
def compare_sw (r v : UInt24) : UInt24 :=
  if r.to_int = v.to_int then ⟨0, 0, 0⟩
  else if r.to_int < v.to_int then ⟨0, 0, 1⟩
  else ⟨0, 0, 2⟩

/-- Propagate a raised exception out of an effect: continue with the result
when the `Except` computation succeeds, otherwise surface its error.  (A
combinator of the embedding; Python's exception propagation.) -/
def onOk {α : Type} (e : Except String α) (k : α → StepOutcome) : StepOutcome :=
  match e with
  | .ok u => k u
  | .error msg => .error msg

/-- `make_jump_effect`'s taken branch and `jsub_effect`'s tail:
`registers[PC] = UInt24.from_int(decoded_address)`, which raises when the
effective address exceeds 0xFFFFFF (possible, since `address + X` can). -/
def jump_to (s : SimState) (da : Nat) : StepOutcome :=
  onOk (UInt24.from_int (da : Int)) fun u =>
    .next { s with regs := { s.regs with PC := u } }

/-- The effect function of each opcode (`common/optable.py`), applied after
the run loop has already advanced PC by 3.  `STCH`'s `store_effect` assigns
the full 3 register bytes to a 1-element numpy slice, which raises a
broadcast `ValueError`; `rd_effect` raises when stdin is exhausted;
`halt_effect` raises `KeyboardInterrupt`. -/
def run_effect (op : Mnemonic) (s : SimState) (da : Nat) : StepOutcome :=
  match op with
  | .LDA => .next { s with regs := { s.regs with A := get_word s.mem da } }
  | .LDCH => .next { s with regs := { s.regs with A := ⟨0, 0, s.mem da⟩ } }
  | .LDX => .next { s with regs := { s.regs with X := get_word s.mem da } }
  | .LDL => .next { s with regs := { s.regs with L := get_word s.mem da } }
  | .LDS => .next { s with regs := { s.regs with S := get_word s.mem da } }
  | .STA => .next { s with mem := writeBytes s.mem da s.regs.A.toBytes }
  | .STCH => .error "could not broadcast input array from shape (3,) into shape (1,)"
  | .STX => .next { s with mem := writeBytes s.mem da s.regs.X.toBytes }
  | .STL => .next { s with mem := writeBytes s.mem da s.regs.L.toBytes }
  | .STS => .next { s with mem := writeBytes s.mem da s.regs.S.toBytes }
  | .COMP => .next { s with regs :=
      { s.regs with SW := compare_sw s.regs.A (get_word s.mem da) } }
  | .TIX =>
    onOk (UInt24.from_int ((s.regs.X.to_int : Int) + 1)) fun x' =>
      .next { s with regs :=
        { s.regs with X := x', SW := compare_sw x' (get_word s.mem da) } }
  | .ADD =>
    onOk (make_arithmetic_effect addLambda s.regs s.mem da) fun regs' =>
      .next { s with regs := regs' }
  | .SUB =>
    onOk (make_arithmetic_effect subLambda s.regs s.mem da) fun regs' =>
      .next { s with regs := regs' }
  | .J => jump_to s da
  | .JEQ => if s.regs.SW.to_int = 0 then jump_to s da else .next s
  | .JLT => if s.regs.SW.to_int = 1 then jump_to s da else .next s
  | .JGT => if s.regs.SW.to_int = 2 then jump_to s da else .next s
  | .JSUB => jump_to { s with regs := { s.regs with L := s.regs.PC } } da
  | .RSUB => .next { s with regs := { s.regs with PC := s.regs.L } }
  | .RD =>
    match s.input with
    | [] => .error "No input"
    | c :: rest =>
      .next { s with regs := { s.regs with A := ⟨0, 0, c⟩ }, input := rest }
  | .WD => .next { s with output := s.output ++ [s.regs.A] }
  | .HLT => .halted
  | .NOP => .next s

/-- `code_lut.get(opcode)`: stop with the unknown-opcode outcome when the
lookup misses, otherwise continue with the table entry. -/
def dispatch (o : Option Mnemonic) (missing : StepOutcome)
    (k : Mnemonic → StepOutcome) : StepOutcome :=
  match o with
  | none => missing
  | some m => k m

/-- One iteration of the fetch-decode-execute loop in `sim/__main__.py`
(lines 73-115): fetch 3 bytes at PC, decode them as a
`SICFormatObjectCode` (little-endian 16-bit `_ia`), add the index register
when the indexed bit is set, stop on an unknown opcode, advance PC by 3
(before the effect runs; `UInt24.from_int` raises past 0xFFFFFF), then run
the effect, which may overwrite PC. -/
def sim_step (s : SimState) : StepOutcome :=
  let pc := s.regs.PC.to_int
  let decoded : SICFormatObjectCode := ⟨s.mem pc, s.mem (pc + 1) + 256 * s.mem (pc + 2)⟩
  let decoded_address := decoded.address + (if decoded.indexed then s.regs.X.to_int else 0)
  dispatch (code_lut decoded.opcode) (.unknownOpcode decoded.opcode) fun op =>
    onOk (UInt24.from_int ((pc : Int) + 3)) fun pc' =>
      run_effect op { s with regs := { s.regs with PC := pc' } } decoded_address

/-- The `while True:` loop itself, bounded by `fuel` iterations; returns the
final outcome, or the reached state if `fuel` runs out first.  The loop has
no other exit: in particular it never consults the loader's terminal
address. -/
def sim_run : Nat → SimState → StepOutcome
  | 0, s => .next s
  | fuel + 1, s =>
    match sim_step s with
    | .next s' => sim_run fuel s'
    | out => out

/-- A concrete object program: Header (name `NOP`, start 0, length 3), one
Text record carrying a single `NOP` instruction word, End (exec 0). -/
def progNop : List Nat :=
  [0, 78, 79, 80, 0, 0, 0, 0, 0, 0, 0, 0, 3] ++ [1, 0, 0, 0, 3] ++ [23, 0, 0]
    ++ [2, 0, 0, 0]

/-! ## `asm/directives.py` and `asm/model.py`

`AsmDirectives` is an enum of the six assembler directives.  An instruction's
`op` is either an `OpcodeTable` member or an `AsmDirectives` member.  The
untyped `parsed_ctx` dict is modelled as a typed payload holding exactly the
keys each operation kind stores (`symbol`/`indexed` for opcodes,
`program_name`/`starting_addr` for START, `exec_addr` for END, `value` for
BYTE/WORD); `.get`-style accessors below mirror dict lookups with defaults,
`Except`-returning accessors mirror plain `[...]` lookups that can raise
`KeyError`.  Python's unbounded locations and sizes are `Int` (a negative
`RESB` operand makes sizes negative). -/

inductive AsmDirective where
  | START | «END» | BYTE | WORD | RESB | RESW
deriving Repr, DecidableEq

inductive OpRef where
  | op (m : Mnemonic)
  | dir (d : AsmDirective)
deriving Repr, DecidableEq

inductive ParsedCtx where
  | empty
  | opcode (symbol : Option String) (indexed : Bool)
  | start (program_name : String) (starting_addr : Nat)
  | endCtx (exec_addr : Nat)
  | byte (value : List Nat)
  | word (value : UInt24)
deriving Repr, DecidableEq

/-- `parsed_ctx.get("symbol", None)`. -/
def ParsedCtx.symbol : ParsedCtx → Option String
  | .opcode s _ => s
  | _ => none

/-- `parsed_ctx.get("indexed", False)`. -/
def ParsedCtx.indexedFlag : ParsedCtx → Bool
  | .opcode _ i => i
  | _ => false

/-- `parsed_ctx["value"]` for a BYTE instruction (raises `KeyError` when
absent). -/
def ParsedCtx.byteValue : ParsedCtx → Except String (List Nat)
  | .byte v => .ok v
  | _ => .error "KeyError: value"

/-- `parsed_ctx["value"]` for a WORD instruction. -/
def ParsedCtx.wordValue : ParsedCtx → Except String UInt24
  | .word v => .ok v
  | _ => .error "KeyError: value"

/-- `parsed_ctx["starting_addr"]`. -/
def ParsedCtx.startingAddr : ParsedCtx → Except String Nat
  | .start _ a => .ok a
  | _ => .error "KeyError: starting_addr"

/-- `parsed_ctx["program_name"]`. -/
def ParsedCtx.programName : ParsedCtx → Except String String
  | .start n _ => .ok n
  | _ => .error "KeyError: program_name"

/-- `parsed_ctx["exec_addr"]`. -/
def ParsedCtx.execAddr : ParsedCtx → Except String Nat
  | .endCtx a => .ok a
  | _ => .error "KeyError: exec_addr"

/-- `Instruction` from `asm/model.py` (dataclass), with `parsed_ctx` already
typed.  `parse_instruction` creates it with an empty context;
`parse_and_determine_size` fills the context in. -/
structure Instruction where
  instruction_name : String
  op : OpRef
  location : Int
  line_number : Nat
  label : Option String
  operand : Option String
  ctx : ParsedCtx := .empty
deriving Repr, DecidableEq

/-! ## `asm/assemble.py`: tokenizer

Python string helpers, restricted to the ASCII inputs the assembler works
with (`str.strip` and friends also strip some unicode whitespace; no claim
involves non-ASCII whitespace). -/

/-- `str.startswith(p)` on the character list (core `String.startsWith` is
implemented with byte positions that do not reduce in the kernel). -/
def strStartsWith (s : String) (p : List Char) : Bool :=
  s.toList.take p.length = p

/-- `str.endswith(p)`. -/
def strEndsWith (s : String) (p : List Char) : Bool :=
  s.toList.reverse.take p.length = p.reverse

def isPySpace (c : Char) : Bool :=
  c = ' ' || c = '\t' || c = '\n' || c = '\r' || c = '\x0b' || c = '\x0c'

def pyRstrip (s : String) : String :=
  String.mk ((s.toList.reverse.dropWhile isPySpace).reverse)

def pyLstrip (s : String) : String :=
  String.mk (s.toList.dropWhile isPySpace)

def pyStrip (s : String) : String :=
  pyLstrip (pyRstrip s)

/-- `line.partition("#")[0]`: everything before the first comment marker. -/
def beforeComment (s : String) : List Char :=
  s.toList.takeWhile (· ≠ '#')

/-- `line.split(maxsplit=2)`: split on whitespace runs, at most twice; the
third field is the untouched remainder (leading whitespace consumed as
separator, trailing whitespace kept — the caller strips every token
anyway). -/
def splitMax2 (cs : List Char) : List String :=
  let cs1 := cs.dropWhile isPySpace
  if cs1 = [] then []
  else
    let f1 := cs1.takeWhile (fun c => !isPySpace c)
    let r1 := cs1.dropWhile (fun c => !isPySpace c)
    let cs2 := r1.dropWhile isPySpace
    if cs2 = [] then [String.mk f1]
    else
      let f2 := cs2.takeWhile (fun c => !isPySpace c)
      let r2 := cs2.dropWhile (fun c => !isPySpace c)
      let cs3 := r2.dropWhile isPySpace
      if cs3 = [] then [String.mk f1, String.mk f2]
      else [String.mk f1, String.mk f2, String.mk cs3]

/-- The token list of one line: truncate at `#`, split, strip each token and
drop the empty ones. -/
def lineTokens (line : String) : List String :=
  ((splitMax2 (beforeComment line)).map pyStrip).filter (· ≠ "")

/-- `tokenize(lines)` from `asm/assemble.py`: enumerate lines from 1; skip a
line when it is empty (`not line`) or when, after `rstrip`, it starts with
`#` (note: `rstrip`, not `lstrip` — a comment line with leading whitespace
is NOT skipped and yields its token list, possibly empty). -/
def tokenize : List String → List (Nat × List String) :=
  go 1
where
  go : Nat → List String → List (Nat × List String)
    | _, [] => []
    | n, line :: rest =>
      if line = "" || strStartsWith (pyRstrip line) ['#'] then go (n + 1) rest
      else (n, lineTokens line) :: go (n + 1) rest

/-! ## `asm/assemble.py`: `determine_instruction` and `parse_instruction` -/

def mnemonicOfName (s : String) : Option Mnemonic :=
  if s = "LDA" then some .LDA else if s = "LDCH" then some .LDCH
  else if s = "LDX" then some .LDX else if s = "LDL" then some .LDL
  else if s = "LDS" then some .LDS else if s = "STA" then some .STA
  else if s = "STCH" then some .STCH else if s = "STX" then some .STX
  else if s = "STL" then some .STL else if s = "STS" then some .STS
  else if s = "COMP" then some .COMP else if s = "TIX" then some .TIX
  else if s = "ADD" then some .ADD else if s = "SUB" then some .SUB
  else if s = "J" then some .J else if s = "JEQ" then some .JEQ
  else if s = "JLT" then some .JLT else if s = "JGT" then some .JGT
  else if s = "JSUB" then some .JSUB else if s = "RSUB" then some .RSUB
  else if s = "RD" then some .RD else if s = "WD" then some .WD
  else if s = "HLT" then some .HLT else if s = "NOP" then some .NOP
  else none

def directiveOfName (s : String) : Option AsmDirective :=
  if s = "START" then some .START else if s = "END" then some .«END»
  else if s = "BYTE" then some .BYTE else if s = "WORD" then some .WORD
  else if s = "RESB" then some .RESB else if s = "RESW" then some .RESW
  else none

/-- `determine_instruction`: opcode table first, then the directive table,
else `ValueError` (message includes the name and line in Python). -/
def determine_instruction (ins_name : String) : Except String OpRef :=
  match mnemonicOfName ins_name with
  | some m => .ok (.op m)
  | none =>
    match directiveOfName ins_name with
    | some d => .ok (.dir d)
    | none => .error "Invalid instruction"

/-- `parse_instruction(token, locctr, line_number)`: the three recognized
token shapes; in the 2-token shape the first token is tried as an
instruction (with the lookup error suppressed), and on failure it becomes
the label with the second token required to be an instruction.  Note that in
the label+mnemonic shape the operand is `None`. -/
def parse_instruction (token : List String) (locctr : Int) (line_number : Nat) :
    Except String Instruction :=
  match token with
  | [ins_name] =>
    (determine_instruction ins_name).map fun op =>
      { instruction_name := ins_name, op := op, location := locctr,
        line_number := line_number, label := none, operand := none }
  | [first, second] =>
    match determine_instruction first with
    | .ok ins =>
      .ok { instruction_name := first, op := ins, location := locctr,
            line_number := line_number, label := none, operand := some second }
    | .error _ =>
      (determine_instruction second).map fun ins =>
        { instruction_name := second, op := ins, location := locctr,
          line_number := line_number, label := some first, operand := none }
  | [label, ins_name, operand] =>
    (determine_instruction ins_name).map fun ins =>
      { instruction_name := ins_name, op := ins, location := locctr,
        line_number := line_number, label := some label, operand := some operand }
  | _ => .error "Invalid instruction format"

/-! ## `asm/assemble.py`: operand syntax (Python `re.match` semantics)

All three patterns are anchored with `$`, which in Python matches at the end
of the string OR just before one final newline.  `reDollarAt` captures
exactly that; the quantified pieces are expanded to the finitely many
backtracking alternatives Python's engine would try. -/

def reDollarAt (rest : List Char) : Bool :=
  rest = [] || rest = ['\n']

def isUpperAZ (c : Char) : Bool := 'A' ≤ c && c ≤ 'Z'

def isDigit09 (c : Char) : Bool := '0' ≤ c && c ≤ '9'

def isHexDigit (c : Char) : Bool :=
  isDigit09 c || ('A' ≤ c && c ≤ 'F') || ('a' ≤ c && c ≤ 'f')

/-- `re.match(r"^[A-Z]{1,6}$", s)` is truthy. -/
def labelMatch (s : String) : Bool :=
  let cs := s.toList
  (List.range 6).any fun i =>
    (cs.take (i + 1)).length = i + 1 && (cs.take (i + 1)).all isUpperAZ &&
      reDollarAt (cs.drop (i + 1))

/-- `re.match(r"^([A-Z]{1,6})(,X)?$", s)`: `none` when it fails, otherwise
the captured symbol (group 1) together with whether `,X` was present (group
2).  Greedy: longer symbol prefixes are tried first. -/
def operandMatch (s : String) : Option (String × Bool) :=
  let cs := s.toList
  ((List.range 6).reverse).findSome? fun i =>
    let k := i + 1
    if (cs.take k).length = k && (cs.take k).all isUpperAZ then
      if reDollarAt (cs.drop k) then some (String.mk (cs.take k), false)
      else if (cs.drop k).take 2 = [',', 'X'] && reDollarAt ((cs.drop k).drop 2) then
        some (String.mk (cs.take k), true)
      else none
    else none

/-- `re.match(r"^[0-9A-Fa-f]{4}$", s)` is truthy. -/
def hex4Match (s : String) : Bool :=
  let cs := s.toList
  (cs.take 4).length = 4 && (cs.take 4).all isHexDigit && reDollarAt (cs.drop 4)

def hexDigitVal (c : Char) : Nat :=
  if isDigit09 c then c.toNat - '0'.toNat
  else if 'a' ≤ c && c ≤ 'f' then c.toNat - 'a'.toNat + 10
  else if 'A' ≤ c && c ≤ 'F' then c.toNat - 'A'.toNat + 10
  else 0

/-- `int(s, 16)` on a string of hex digits (possibly with one trailing
newline, which `int` strips as whitespace). -/
def parseHexNat (cs : List Char) : Nat :=
  (cs.takeWhile isHexDigit).foldl (fun a c => a * 16 + hexDigitVal c) 0

/-- `int(s)`: optional surrounding whitespace, optional sign, then decimal
digits (Python also accepts underscores between digits; no source input uses
them). -/
def pyInt (s : String) : Option Int :=
  let t := (pyStrip s).toList
  match t with
  | '-' :: ds =>
    if ds ≠ [] && ds.all isDigit09 then
      some (-(ds.foldl (fun a c => a * 10 + (c.toNat - '0'.toNat)) 0 : Nat))
    else none
  | '+' :: ds =>
    if ds ≠ [] && ds.all isDigit09 then
      some ((ds.foldl (fun a c => a * 10 + (c.toNat - '0'.toNat)) 0 : Nat))
    else none
  | ds =>
    if ds ≠ [] && ds.all isDigit09 then
      some ((ds.foldl (fun a c => a * 10 + (c.toNat - '0'.toNat)) 0 : Nat))
    else none

/-- `str.isdigit()` (ASCII): nonempty and all decimal digits. -/
def pyIsdigit (s : String) : Bool :=
  s.toList ≠ [] && s.toList.all isDigit09

/-! ## `asm/assemble.py`: `parse_word_operand` and `parse_byte_operand` -/

/-- `parse_word_operand(operand, line_number)`.  Branches, in source order:
`0x` + exactly 8 chars → `int(operand, 16)` (an invalid hex digit makes
`int` itself raise, uncaught — different message); trailing `U` → unsigned
decimal via `UInt24.from_int` (whose own range `ValueError` is uncaught);
otherwise signed decimal, where both `int()` failure and the
`Int24.from_int` range error are caught and re-raised as the operand
error. -/
def parse_word_operand (operand : String) : Except String UInt24 :=
  if strStartsWith operand ['0', 'x'] && operand.length = 8 then
    if (operand.toList.drop 2).all isHexDigit then
      UInt24.from_int (parseHexNat (operand.toList.drop 2) : Int)
    else .error "invalid literal for int() with base 16"
  else if strEndsWith operand ['U'] then
    let digit_part := String.mk (operand.toList.dropLast)
    if pyIsdigit digit_part then
      UInt24.from_int
        ((digit_part.toList.foldl (fun a c => a * 10 + (c.toNat - '0'.toNat)) 0 : Nat) : Int)
    else .error "Invalid operand for WORD directive"
  else
    match pyInt operand with
    | none => .error "Invalid operand for WORD directive"
    | some v =>
      match Int24.from_int v with
      | .ok i => .ok i.toUInt24
      | .error _ => .error "Invalid operand for WORD directive"

/-- `parse_byte_operand(operand, line_number)`: `0x` + exactly 4 chars (one
byte), or `c'...'` ASCII text (a non-ASCII character raises
`UnicodeEncodeError`, uncaught — modelled as its own error). -/
def parse_byte_operand (operand : String) : Except String (List Nat) :=
  if strStartsWith operand ['0', 'x'] && operand.length = 4 then
    if (operand.toList.drop 2).all isHexDigit then
      .ok [parseHexNat (operand.toList.drop 2)]
    else .error "Invalid operand for BYTE directive"
  else if strStartsWith operand ['c', '\''] && strEndsWith operand ['\''] then
    let char_part := (operand.toList.drop 2).dropLast
    if char_part.all (fun c => c.toNat < 128) then
      .ok (char_part.map Char.toNat)
    else .error "UnicodeEncodeError: ascii codec cannot encode character"
  else .error "Invalid operand for BYTE directive"

/-! ## `asm/assemble.py`: `parse_and_determine_size` -/

/-- `parse_and_determine_size(instruction)`: validates the label, then
dispatches on the operation kind; returns the size the location counter
advances by together with the filled-in `parsed_ctx` payload.  The guard
`if instruction.label:` is Python truthiness — falsy for `None` AND for the
empty string — so an empty-string label skips validation entirely; only a
nonempty label is matched against the pattern (with Python `$`-semantics).
Error strings abbreviate Python's interpolated messages. -/
def parse_and_determine_size (i : Instruction) : Except String (Int × ParsedCtx) :=
  match (match i.label with
         | some l =>
           if l = "" then (.ok () : Except String Unit)
           else if labelMatch l then .ok ()
           else .error "Invalid label"
         | none => (.ok () : Except String Unit)) with
  | .error e => .error e
  | .ok _ =>
    match i.op with
    | .op m =>
      if hasOperand m && i.operand = none then
        .error "Instruction requires an operand"
      else
        match i.operand with
        | some opnd =>
          match operandMatch opnd with
          | none => .error "Invalid operand for instruction"
          | some (sym, idx) => .ok (3, .opcode (some sym) idx)
        | none => .ok (3, .opcode none false)
    | .dir .START =>
      match i.label with
      | none => .error "START directive requires a program name"
      | some name =>
        match i.operand with
        | none => .error "START directive requires an starting_addr"
        | some opnd =>
          if hex4Match opnd then
            .ok (0, .start name (parseHexNat opnd.toList))
          else .error "Invalid operand for START directive"
    | .dir .«END» =>
      match i.operand with
      | none => .ok (0, .endCtx 0)
      | some opnd =>
        if hex4Match opnd then
          .ok (0, .endCtx (parseHexNat opnd.toList))
        else .error "Invalid operand for END directive"
    | .dir .RESB =>
      match i.operand with
      | none => .error "RESB/RESW directive requires an operand"
      | some opnd =>
        match pyInt opnd with
        | none => .error "Invalid operand for RESB/RESW"
        | some num => .ok (num * 1, .empty)
    | .dir .RESW =>
      match i.operand with
      | none => .error "RESB/RESW directive requires an operand"
      | some opnd =>
        match pyInt opnd with
        | none => .error "Invalid operand for RESB/RESW"
        | some num => .ok (num * 3, .empty)
    | .dir .WORD =>
      match i.operand with
      | none => .error "WORD directive requires an operand"
      | some opnd =>
        match parse_word_operand opnd with
        | .error e => .error e
        | .ok v => .ok (3, .word v)
    | .dir .BYTE =>
      match i.operand with
      | none => .error "BYTE directive requires an operand"
      | some opnd =>
        match parse_byte_operand opnd with
        | .error e => .error e
        | .ok value =>
          if 1 ≤ value.length && value.length ≤ 30 then
            .ok ((value.length : Int), .byte value)
          else .error "BYTE directive operand must be between 1 and 30 bytes"

/-! ## `asm/assemble.py`: `parse_and_create_symtab`

The symbol table dict: assignment overwrites an existing key
(last-definition-wins), lookup finds the stored value. -/

def SYMTAB := List (String × Int)

def dictInsert (d : List (String × Int)) (k : String) (v : Int) :
    List (String × Int) :=
  match d with
  | [] => [(k, v)]
  | (k', v') :: rest =>
    if k' = k then (k, v) :: rest else (k', v') :: dictInsert rest k v

def dictLookup (d : List (String × Int)) (k : String) : Option Int :=
  match d with
  | [] => none
  | (k', v') :: rest => if k' = k then some v' else dictLookup rest k

/-- The `for` loop of `parse_and_create_symtab`: parse each token group,
size it (filling the context), update the location counter (START *sets* it
and the starting address), append the instruction, and record its label at
the instruction's (pre-update) location. -/
def symtab_loop (tokens : List (Nat × List String)) (symtab : List (String × Int))
    (instructions : List Instruction) (starting_addr locctr : Int) :
    Except String (List (String × Int) × List Instruction × Int) :=
  match tokens with
  | [] => .ok (symtab, instructions, locctr - starting_addr)
  | (line_number, token) :: rest =>
    match parse_instruction token locctr line_number with
    | .error e => .error e
    | .ok instruction =>
      match parse_and_determine_size instruction with
      | .error e => .error e
      | .ok (size, ctx) =>
        let instruction := { instruction with ctx := ctx }
        let (starting_addr', locctr') :=
          if instruction.op = .dir .START then
            match ctx.startingAddr with
            | .ok a => ((a : Int), (a : Int))
            | .error _ => (starting_addr, locctr)
          else (starting_addr, locctr + size)
        let symtab' :=
          match instruction.label with
          | some l => dictInsert symtab l instruction.location
          | none => symtab
        symtab_loop rest symtab' (instructions ++ [instruction])
          starting_addr' locctr'

/-- `parse_and_create_symtab(tokens)`: returns the symbol table, the
instruction list and `locctr - starting_addr` (the program length).  (For a
START instruction `ctx.startingAddr` cannot be the error case —
`parse_and_determine_size` always fills it — so the fallback branch above is
dead.) -/
def parse_and_create_symtab (tokens : List (Nat × List String)) :
    Except String (List (String × Int) × List Instruction × Int) :=
  symtab_loop tokens [] [] 0 0

/-! ## `asm/create_object_program.py`: text-record grouping (C6) -/

/-- The per-instruction emitted byte count used by the chunking loop:
`BYTE` contributes `len(parsed_ctx["value"])`, `WORD` and every opcode 3;
`START`/`END` inside the chunked range raise. -/
def insLength (i : Instruction) : Except String Nat :=
  match i.op with
  | .dir .BYTE => i.ctx.byteValue.map List.length
  | .dir .WORD => .ok 3
  | .op _ => .ok 3
  | .dir _ => .error "Invalid instruction in text record grouping"

/-- The loop of `group_instructions_for_text_record`, carrying the current
`chunk` and its byte `length`.  `RESB`/`RESW` flush a nonempty chunk; an
instruction that would push the chunk past `TextRecord.MAX_TEXT_RECORD_SIZE`
(30) flushes first and starts the new chunk with that instruction; a
trailing nonempty chunk is flushed at the end. -/
def group_go (instructions chunk : List Instruction) (length : Nat) :
    Except String (List (List Instruction × Nat)) :=
  match instructions with
  | [] => .ok (if chunk = [] then [] else [(chunk, length)])
  | i :: rest =>
    if i.op = .dir .RESB || i.op = .dir .RESW then
      if chunk = [] then group_go rest chunk length
      else (group_go rest [] 0).map (fun gs => (chunk, length) :: gs)
    else
      match insLength i with
      | .error e => .error e
      | .ok ins_length =>
        if length + ins_length > 30 then
          (group_go rest [i] ins_length).map (fun gs => (chunk, length) :: gs)
        else group_go rest (chunk ++ [i]) (length + ins_length)

def group_instructions_for_text_record (instructions : List Instruction) :
    Except String (List (List Instruction × Nat)) :=
  group_go instructions [] 0

/-! ## `asm/create_object_program.py`: record emission (C8)

The heterogeneous `object_program` list: ctypes records, instruction words,
BYTE byte-arrays and WORD `UInt24`s. -/

inductive ObjProgRecord where
  | header (program_name : List Nat) (starting_address : UInt24)
      (program_length : UInt24)
  | text (starting_address : UInt24) (length : Nat)
  | endR (exec_address : UInt24)
  | modification (address : UInt24) (length : Nat)
  | sic (c : SICFormatObjectCode)
  | bytes (value : List Nat)
  | word (value : UInt24)
deriving Repr, DecidableEq

/-- `program_name.encode("ascii")` (raises on non-ASCII) followed by
`.ljust(6, b"\x00")`. -/
def encodeAsciiLjust6 (name : String) : Except String (List Nat) :=
  if name.toList.all (fun c => c.toNat < 128) then
    let bs := name.toList.map Char.toNat
    .ok (bs ++ List.replicate (6 - bs.length) 0)
  else .error "UnicodeEncodeError: ascii codec cannot encode character"

/-- The body of the inner `for instruction in grouped_instructions` loop:
emit one object-program entry and the Modification records it contributes.
An opcode instruction with a symbol absent from the symbol table raises the
undefined-symbol error; without a symbol it is encoded with address 0. -/
def emitOne (symtab : List (String × Int)) (i : Instruction) :
    Except String (ObjProgRecord × List ObjProgRecord) :=
  match i.op with
  | .dir .BYTE =>
    match i.ctx.byteValue with
    | .error e => .error e
    | .ok v => .ok (.bytes v, [])
  | .dir .WORD =>
    match i.ctx.wordValue with
    | .error e => .error e
    | .ok v => .ok (.word v, [])
  | .op m =>
    let indexed := i.ctx.indexedFlag
    match i.ctx.symbol with
    | none => .ok (.sic (SICFormatObjectCode.create m 0 indexed), [])
    | some sym =>
      match dictLookup symtab sym with
      | none => .error "Symbol not found in the symbol table"
      | some address =>
        match UInt24.from_int (i.location + 1) with
        | .error e => .error e
        | .ok modAddr =>
          .ok (.sic (SICFormatObjectCode.create m address indexed),
               [.modification modAddr 2])
  | .dir _ => .error "AssertionError: instruction is not an opcode"

/-- Emit all instructions of one chunk, collecting Modification records
separately (they are appended after all Text records). -/
def emitChunk (symtab : List (String × Int)) :
    List Instruction → Except String (List ObjProgRecord × List ObjProgRecord)
  | [] => .ok ([], [])
  | i :: rest =>
    match emitOne symtab i with
    | .error e => .error e
    | .ok (r, ms) =>
      match emitChunk symtab rest with
      | .error e => .error e
      | .ok (rs, ms') => .ok (r :: rs, ms ++ ms')

/-- Emit every chunk: one Text record (start = first instruction's location,
ctypes `c_uint8` length) followed by the chunk's entries. -/
def emitChunks (symtab : List (String × Int)) :
    List (List Instruction × Nat) →
      Except String (List ObjProgRecord × List ObjProgRecord)
  | [] => .ok ([], [])
  | (grouped, tlen) :: rest =>
    match grouped.head? with
    | none => .error "IndexError: list index out of range"
    | some g0 =>
      match UInt24.from_int g0.location with
      | .error e => .error e
      | .ok tstart =>
        match emitChunk symtab grouped with
        | .error e => .error e
        | .ok (rs, ms) =>
          match emitChunks symtab rest with
          | .error e => .error e
          | .ok (rs', ms') =>
            .ok ((.text tstart (tlen % 256) :: rs) ++ rs', ms ++ ms')

/-- `create_object_program(symtab, instructions, program_length)`:
structural checks (at least 3 instructions, first START, last END), Header,
Text record groups over `instructions[1:-1]`, all Modification records, one
End record. -/
def create_object_program (symtab : List (String × Int))
    (instructions : List Instruction) (program_length : Int) :
    Except String (List ObjProgRecord) :=
  if instructions.length < 3 then
    .error "The instruction list must contain at least 3 instructions"
  else
    match instructions.head?, instructions.getLast? with
    | some start, some lastIns =>
      if start.op ≠ .dir .START || lastIns.op ≠ .dir .«END» then
        .error "The first instruction must be START and the last instruction must be END"
      else
        match start.ctx.startingAddr with
        | .error e => .error e
        | .ok starting_address =>
          match start.ctx.programName with
          | .error e => .error e
          | .ok program_name =>
            match lastIns.ctx.execAddr with
            | .error e => .error e
            | .ok executing_address =>
              match encodeAsciiLjust6 program_name with
              | .error e => .error e
              | .ok nameBytes =>
                match UInt24.from_int (starting_address : Int) with
                | .error e => .error e
                | .ok saU =>
                  match UInt24.from_int program_length with
                  | .error e => .error e
                  | .ok plU =>
                    match group_instructions_for_text_record
                        ((instructions.drop 1).dropLast) with
                    | .error e => .error e
                    | .ok groups =>
                      match emitChunks symtab groups with
                      | .error e => .error e
                      | .ok (texts, mods) =>
                        match UInt24.from_int (executing_address : Int) with
                        | .error e => .error e
                        | .ok execU =>
                          .ok ((.header nameBytes saU plU :: texts) ++
                            mods ++ [.endR execU])
    | _, _ => .error "unreachable: guarded by the length check"

/-- `assemble_program(program)`, starting from the already-split lines
(`program.splitlines()`). -/
def assemble_program (lines : List String) : Except String (List ObjProgRecord) :=
  match parse_and_create_symtab (tokenize lines) with
  | .error e => .error e
  | .ok (symtab, instructions, program_length) =>
    create_object_program symtab instructions program_length

/-- Modelled from the claim's words (spec side, for comparison with the
code's `labelMatch`): a valid label is 1 to 6 uppercase letters. -/
def spec_label_ok (s : String) : Bool :=
  1 ≤ s.toList.length && s.toList.length ≤ 6 && s.toList.all isUpperAZ
/-! ## Theorems -/

theorem opcodeNum_lt_256 (m : Mnemonic) : opcodeNum m < 256 := by
  cases m <;> decide

theorem code_lut_opcodeNum (m : Mnemonic) : code_lut (opcodeNum m) = some m := by
  cases m <;> rfl

/-! Arithmetic facts about the 15-bit address packing. -/

theorem nat_lor_two_pow15 {n : Nat} (h : n < 32768) : n ||| 32768 = n + 32768 := by
  have h15 : n < 2 ^ 15 := by omega
  apply Nat.eq_of_testBit_eq
  intro j
  rw [Nat.testBit_lor, (show n + 32768 = 2 ^ 15 * 1 + n by omega),
    Nat.testBit_mul_pow_two_add 1 h15 j]
  by_cases hj : j < 15
  · rw [if_pos hj, (show (32768 : Nat) = 2 ^ 15 by norm_num),
      Nat.testBit_two_pow_of_ne (show 15 ≠ j by omega), Bool.or_false]
  · rw [if_neg hj]
    by_cases hj2 : j = 15
    · subst hj2
      rw [Nat.testBit_lt_two_pow h15, (show (32768 : Nat) = 2 ^ 15 by norm_num),
        Nat.testBit_two_pow_self]
      decide
    · have hn : n < 2 ^ j :=
        lt_of_lt_of_le h15 (Nat.pow_le_pow_right (by norm_num) (by omega))
      rw [Nat.testBit_lt_two_pow hn, (show (32768 : Nat) = 2 ^ 15 by norm_num),
        Nat.testBit_two_pow_of_ne (show 15 ≠ j by omega)]
      have h1 : Nat.testBit 1 (j - 15) = false :=
        Nat.testBit_lt_two_pow (by
          have : 1 ≤ j - 15 := by omega
          calc 1 < 2 ^ 1 := by norm_num
            _ ≤ 2 ^ (j - 15) := Nat.pow_le_pow_right (by norm_num) this)
      rw [h1]
      rfl

theorem nat_and_two_pow15_of_lt {n : Nat} (h : n < 32768) : n &&& 32768 = 0 := by
  have h15 : n < 2 ^ 15 := by omega
  apply Nat.eq_of_testBit_eq
  intro j
  rw [Nat.testBit_and, Nat.zero_testBit]
  by_cases hj : j = 15
  · subst hj
    rw [Nat.testBit_lt_two_pow h15, Bool.false_and]
  · rw [(show (32768 : Nat) = 2 ^ 15 by norm_num),
      Nat.testBit_two_pow_of_ne (show 15 ≠ j by omega), Bool.and_false]

theorem nat_and_two_pow15_of_add {n : Nat} (h : n < 32768) :
    (n + 32768) &&& 32768 = 32768 := by
  have h15 : n < 2 ^ 15 := by omega
  have ht : (n + 32768).testBit 15 = true := by
    rw [(show n + 32768 = 2 ^ 15 * 1 + n by omega),
      Nat.testBit_mul_pow_two_add 1 h15 15, if_neg (by omega)]
    decide
  apply Nat.eq_of_testBit_eq
  intro j
  rw [Nat.testBit_and]
  by_cases hj : j = 15
  · subst hj
    rw [ht, (show (32768 : Nat) = 2 ^ 15 by norm_num), Nat.testBit_two_pow_self]
    rfl
  · rw [(show (32768 : Nat) = 2 ^ 15 by norm_num),
      Nat.testBit_two_pow_of_ne (show 15 ≠ j by omega), Bool.and_false]

theorem nat_and_mask15_eq_mod (x : Nat) : x &&& 32767 = x % 32768 := by
  have := Nat.and_pow_two_sub_one_eq_mod x 15
  norm_num at this
  exact this

/-- Created instruction word, `_ia` computed at the `Nat` level. -/
theorem create_ia (m : Mnemonic) (a : Nat) (ind : Bool) :
    (SICFormatObjectCode.create m (a : Int) ind)._ia =
      (if ind then a ||| 32768 else a ||| 0) % 65536 := by
  cases ind <;> rfl

/-- C10: for every opcode, indexed flag and address in `[0, 0x7FFF]`, decoding
the instruction word built by `SICFormatObjectCode.create` (its `indexed` and
`address` properties plus the `code_lut` opcode lookup) returns exactly the
inputs; and `create` performs no range check, so for some address at or above
0x8000 the decoded pair differs from the inputs (the address bleeds into the
indexed-flag bit). -/
theorem C10_sic_format_roundtrip :
    (∀ (m : Mnemonic) (ind : Bool) (a : Nat), a ≤ 0x7FFF →
      code_lut (SICFormatObjectCode.create m (a : Int) ind).opcode = some m ∧
      (SICFormatObjectCode.create m (a : Int) ind).indexed = ind ∧
      (SICFormatObjectCode.create m (a : Int) ind).address = a) ∧
    (∃ (a : Nat), 0x8000 ≤ a ∧ ∃ (m : Mnemonic) (ind : Bool),
      ¬((SICFormatObjectCode.create m (a : Int) ind).indexed = ind ∧
        (SICFormatObjectCode.create m (a : Int) ind).address = a)) := by
  constructor
  · intro m ind a ha
    have hop : (SICFormatObjectCode.create m (a : Int) ind).opcode = opcodeNum m :=
      Nat.mod_eq_of_lt (opcodeNum_lt_256 m)
    have hlut : code_lut (SICFormatObjectCode.create m (a : Int) ind).opcode
        = some m := by rw [hop, code_lut_opcodeNum]
    cases ind
    · have hia : (SICFormatObjectCode.create m (a : Int) false)._ia = a := by
        rw [create_ia, if_neg (by simp), Nat.or_zero]
        exact Nat.mod_eq_of_lt (by omega)
      refine ⟨hlut, ?_, ?_⟩
      · unfold SICFormatObjectCode.indexed
        rw [hia, (show (0x8000 : Nat) = 32768 by norm_num),
          nat_and_two_pow15_of_lt (by omega)]
        rfl
      · unfold SICFormatObjectCode.address
        rw [hia, (show (0x7FFF : Nat) = 32767 by norm_num), nat_and_mask15_eq_mod]
        omega
    · have hia : (SICFormatObjectCode.create m (a : Int) true)._ia = a + 32768 := by
        rw [create_ia, if_pos rfl, nat_lor_two_pow15 (by omega)]
        exact Nat.mod_eq_of_lt (by omega)
      refine ⟨hlut, ?_, ?_⟩
      · unfold SICFormatObjectCode.indexed
        rw [hia, (show (0x8000 : Nat) = 32768 by norm_num),
          nat_and_two_pow15_of_add (by omega)]
        rfl
      · unfold SICFormatObjectCode.address
        rw [hia, (show (0x7FFF : Nat) = 32767 by norm_num), nat_and_mask15_eq_mod]
        omega
  · exact ⟨0x8000, by norm_num, .LDA, false, by decide⟩

/-- Witness for C10: instantiating the universally quantified half at
mnemonic `LDA`, indexed, address 0x1234. -/
theorem C10_sic_format_roundtrip_witness :
    code_lut (SICFormatObjectCode.create .LDA ((0x1234 : Nat) : Int) true).opcode
        = some .LDA ∧
    (SICFormatObjectCode.create .LDA ((0x1234 : Nat) : Int) true).indexed = true ∧
    (SICFormatObjectCode.create .LDA ((0x1234 : Nat) : Int) true).address = 0x1234 :=
  C10_sic_format_roundtrip.1 .LDA true 0x1234 (by norm_num)

/-- C1: the claim says a Modification record makes the loader read the 2-byte
little-endian value at `base + address`, add `base`, and write it back.  The
code cannot do this: it selects a 2-byte slice and hands it to
`UInt24.from_buffer_copy`, which needs at least 3 bytes and raises
`ValueError`, so processing any Modification record of length 2 aborts the
load (first conjunct: any loader state, any record address bytes, any
remaining stream; second conjunct: a full `load_program` run on a concrete
program).  No memory patch ever happens. -/
theorem C1_modification_record_crashes :
    (∀ (memSize start fuel : Nat) (mem : Nat → Nat) (exec term b1 b2 b3 : Nat)
      (rest : List Nat),
      load_loop memSize start (fuel + 1) mem true exec term
        (3 :: b1 :: b2 :: b3 :: 2 :: rest) = .error "Buffer size too small") ∧
    load_program 32767 (fun _ => 0) progWithModification 6 =
      .error "Buffer size too small" := by
  constructor
  · intro memSize start fuel mem exec term b1 b2 b3 rest
    have hparse : parse_record (3 :: b1 :: b2 :: b3 :: 2 :: rest) =
        .ok (.modification ⟨b1, b2, b3⟩ 2, rest) := by
      simp [parse_record, u24At]
    simp only [load_loop, hparse]
    rw [if_pos (by omega)]
  · rfl

/-- The execution address `load_program` returns does not depend on the base
address at all: the End branch returns `record.exec_address.to_int()` without
adding `start_location`.  Whenever loading succeeds at two bases, the two
execution addresses are equal. -/
theorem load_loop_exec_base_indep (fuel : Nat) :
    ∀ (data : List Nat) (memSize b1 b2 : Nat) (mem1 mem2 : Nat → Nat)
      (hs : Bool) (exec term1 term2 : Nat) (r1 r2 : LoadResult),
      load_loop memSize b1 fuel mem1 hs exec term1 data = .ok r1 →
      load_loop memSize b2 fuel mem2 hs exec term2 data = .ok r2 →
      r1.exec_address = r2.exec_address := by
  induction fuel with
  | zero =>
    intro data memSize b1 b2 mem1 mem2 hs exec term1 term2 r1 r2 h1 h2
    cases data <;> simp [load_loop] at h1
  | succ n ih =>
    intro data memSize b1 b2 mem1 mem2 hs exec term1 term2 r1 r2 h1 h2
    cases data with
    | nil => simp [load_loop] at h1
    | cons d ds =>
      simp only [load_loop] at h1 h2
      cases hp : parse_record (d :: ds) with
      | error e => rw [hp] at h1; exact absurd h1 (by simp)
      | ok pr =>
        obtain ⟨rec, rest⟩ := pr
        rw [hp] at h1 h2
        cases rec with
        | header name sa pl =>
          simp only at h1 h2
          by_cases hsz : memSize < sa.to_int + pl.to_int
          · rw [if_pos hsz] at h1
            exact absurd h1 (by simp)
          · rw [if_neg hsz] at h1 h2
            exact ih rest memSize b1 b2 mem1 mem2 true exec _ _ r1 r2 h1 h2
        | text sa len =>
          cases hs with
          | false => exact absurd h1 (by simp)
          | true =>
            simp only at h1 h2
            repeat' split at h1
            repeat' split at h2
            all_goals
              try exact ih (rest.drop len) memSize b1 b2 _ _ true exec _ _ r1 r2 h1 h2
            all_goals try simp at h1
            all_goals simp at h2
        | endRec ea =>
          cases hs with
          | false => exact absurd h1 (by simp)
          | true =>
            simp only [Except.ok.injEq] at h1 h2
            rw [← h1, ← h2]
        | modification addr len =>
          cases hs with
          | false => exact absurd h1 (by simp)
          | true =>
            simp only at h1
            split at h1 <;> exact absurd h1 (by simp)

/-- C2 (amended): loading the same object program at two bases yields the
same execution address (difference 0, not `B2 - B1`): the `src` loader
returns the End record's address without offsetting it by the base. -/
theorem C2_exec_address_base_independent
    (memSize b1 b2 : Nat) (mem1 mem2 : Nat → Nat) (data : List Nat)
    (r1 r2 : LoadResult)
    (h1 : load_program memSize mem1 data b1 = .ok r1)
    (h2 : load_program memSize mem2 data b2 = .ok r2) :
    r1.exec_address = r2.exec_address :=
  load_loop_exec_base_indep data.length data memSize b1 b2 mem1 mem2
    false 0 0 0 r1 r2 h1 h2

/-- Witness for C2's amended theorem: the concrete Header+End program loaded
at bases 0 and 100. -/
theorem C2_exec_address_base_independent_witness :
    LoadResult.exec_address ⟨fun _ => 0, 4096, 4113⟩
      = LoadResult.exec_address ⟨fun _ => 0, 4096, 4213⟩ :=
  C2_exec_address_base_independent 32767 0 100 (fun _ => 0) (fun _ => 0)
    progHeaderEnd ⟨fun _ => 0, 4096, 4113⟩ ⟨fun _ => 0, 4096, 4213⟩ rfl rfl

/-- C2 counterexample: the claim predicts that loading at base 0 and base 100
yields execution addresses differing by 100 − 0; the loader actually returns
4096 both times, and 4096 − 4096 ≠ 100 − 0. -/
theorem C2_exec_address_shift_counterexample :
    (load_program 32767 (fun _ => 0) progHeaderEnd 0).map LoadResult.exec_address
        = .ok 4096 ∧
    (load_program 32767 (fun _ => 0) progHeaderEnd 100).map LoadResult.exec_address
        = .ok 4096 ∧
    ¬((4096 : Int) - 4096 = 100 - 0) :=
  ⟨rfl, rfl, by decide⟩

/-! Round-trip facts about the 24-bit encodings. -/

theorem lor_mul_two_pow_add {a b n : Nat} (h : b < 2 ^ n) :
    (2 ^ n * a) ||| b = 2 ^ n * a + b := by
  apply Nat.eq_of_testBit_eq
  intro j
  rw [Nat.testBit_lor, Nat.testBit_mul_pow_two_add a h j]
  have hl : (2 ^ n * a).testBit j = if j < n then false else a.testBit (j - n) := by
    have h0 : (0 : Nat) < 2 ^ n := Nat.pos_pow_of_pos n (by norm_num)
    have := Nat.testBit_mul_pow_two_add a h0 j
    simpa using this
  rw [hl]
  by_cases hj : j < n
  · simp [hj]
  · have hb : b < 2 ^ j :=
      lt_of_lt_of_le h (Nat.pow_le_pow_right (by norm_num) (le_of_not_lt hj))
    simp [hj, Nat.testBit_lt_two_pow hb]

theorem nat_and_255_eq_mod (x : Nat) : x &&& 255 = x % 256 := by
  have := Nat.and_pow_two_sub_one_eq_mod x 8
  norm_num at this
  exact this

/-- `UInt24.to_int` as plain arithmetic, given in-range bytes. -/
theorem UInt24.to_int_eq (u : UInt24) (h2 : u.byte2 < 256) (h3 : u.byte3 < 256) :
    u.to_int = u.byte1 * 65536 + u.byte2 * 256 + u.byte3 := by
  unfold UInt24.to_int
  rw [Nat.shiftLeft_eq, Nat.shiftLeft_eq]
  have e1 : u.byte1 * 2 ^ 16 ||| u.byte2 * 2 ^ 8 = u.byte1 * 2 ^ 16 + u.byte2 * 2 ^ 8 := by
    rw [Nat.mul_comm u.byte1 (2 ^ 16), lor_mul_two_pow_add (by omega)]
  rw [e1]
  have e2 : u.byte1 * 2 ^ 16 + u.byte2 * 2 ^ 8 = 2 ^ 8 * (u.byte1 * 256 + u.byte2) := by
    ring
  rw [e2, lor_mul_two_pow_add (by omega)]
  ring

/-- Recomposing the three extracted bytes of `x < 2^24` gives back `x`. -/
theorem u24_bytes_recompose {x : Nat} (h : x < 16777216) :
    UInt24.to_int ⟨(x >>> 16) &&& 255, (x >>> 8) &&& 255, x &&& 255⟩ = x := by
  rw [UInt24.to_int_eq _ (by simp [nat_and_255_eq_mod]; omega)
      (by simp [nat_and_255_eq_mod]; omega)]
  simp only [Nat.shiftRight_eq_div_pow, nat_and_255_eq_mod]
  omega

theorem UInt24.from_int_ok_of_range {v : Int} (h0 : 0 ≤ v) (h1 : v ≤ 16777215) :
    ∃ u, UInt24.from_int v = .ok u := by
  unfold UInt24.from_int
  rw [if_pos ⟨h0, by exact_mod_cast h1⟩]
  exact ⟨_, rfl⟩

theorem UInt24.from_int_to_int {v : Int} {u : UInt24}
    (h : UInt24.from_int v = .ok u) : (u.to_int : Int) = v := by
  unfold UInt24.from_int at h
  split at h
  · rename_i hr
    injection h with h
    subst h
    have hlt : v.toNat < 16777216 := by omega
    rw [u24_bytes_recompose hlt]
    omega
  · cases h

/-- `Int24.to_int i` routed through the byte-identical `UInt24` view. -/
theorem Int24.to_int_via_u24 (i : Int24) :
    i.to_int = if i.toUInt24.to_int ≥ 8388608 then (i.toUInt24.to_int : Int) - 16777216
      else (i.toUInt24.to_int : Int) := rfl

theorem Int24.from_int_roundtrip {v : Int} (h0 : -8388608 ≤ v) (h1 : v ≤ 8388607) :
    ∃ i, Int24.from_int v = .ok i ∧ i.to_int = v := by
  unfold Int24.from_int
  rw [if_pos ⟨by exact_mod_cast h0, by exact_mod_cast h1⟩]
  refine ⟨_, rfl, ?_⟩
  rw [Int24.to_int_via_u24]
  have hv : (0 : Int) ≤ v.emod 16777216 := Int.emod_nonneg v (by norm_num)
  have hv2 : v.emod 16777216 < 16777216 := Int.emod_lt_of_pos v (by norm_num)
  have hx : ((v.emod 16777216).toNat : Int) = v.emod 16777216 := Int.toNat_of_nonneg hv
  have hlt : (v.emod 16777216).toNat < 16777216 := by omega
  rw [show (Int24.toUInt24 ⟨(v.emod 16777216).toNat >>> 16 &&& 255,
        (v.emod 16777216).toNat >>> 8 &&& 255, (v.emod 16777216).toNat &&& 255⟩)
      = ⟨(v.emod 16777216).toNat >>> 16 &&& 255,
        (v.emod 16777216).toNat >>> 8 &&& 255, (v.emod 16777216).toNat &&& 255⟩ from rfl,
    u24_bytes_recompose hlt]
  have hcase : v.emod 16777216 = v ∨ v.emod 16777216 = v + 16777216 := by
    rcases le_or_lt 0 v with hp | hn
    · left
      show v % 16777216 = v
      exact Int.emod_eq_of_lt hp (by omega)
    · right
      have h2 : (v + 16777216).emod 16777216 = v.emod 16777216 := by
        show (v + 16777216) % 16777216 = v % 16777216
        omega
      rw [← h2]
      show (v + 16777216) % 16777216 = v + 16777216
      exact Int.emod_eq_of_lt (by omega) (by omega)
  split <;> omega

theorem Int24.from_int_error {v : Int} (h : v < -8388608 ∨ 8388607 < v) :
    Int24.from_int v = .error "Value must be in the range -8388608 to 8388607" := by
  unfold Int24.from_int
  rw [if_neg (by omega)]

/-- `make_arithmetic_effect` only rewrites the accumulator. -/
theorem make_arith_only_A {fn : Int → Int → Int} {regs : RegFile} {mem : Nat → Nat}
    {da : Nat} {r : RegFile} (h : make_arithmetic_effect fn regs mem da = .ok r) :
    r.PC = regs.PC ∧ r.X = regs.X ∧ r.L = regs.L ∧ r.SW = regs.SW ∧ r.S = regs.S := by
  simp only [make_arithmetic_effect] at h
  split at h
  · injection h with h
    subst h
    exact ⟨rfl, rfl, rfl, rfl, rfl⟩
  · cases h

/-- The exact behaviour of `make_arithmetic_effect fn`: accumulator read
unsigned, operand read signed, result range-checked. -/
theorem make_arith_spec (fn : Int → Int → Int) (regs : RegFile) (mem : Nat → Nat)
    (da : Nat) :
    (((-8388608 : Int) ≤ fn (regs.A.to_int : Int) (get_word mem da).toInt24.to_int ∧
       fn (regs.A.to_int : Int) (get_word mem da).toInt24.to_int ≤ 8388607) →
      ∃ a' : UInt24, make_arithmetic_effect fn regs mem da = .ok { regs with A := a' } ∧
        a'.toInt24.to_int = fn (regs.A.to_int : Int) (get_word mem da).toInt24.to_int) ∧
    ((fn (regs.A.to_int : Int) (get_word mem da).toInt24.to_int < -8388608 ∨
      (8388607 : Int) < fn (regs.A.to_int : Int) (get_word mem da).toInt24.to_int) →
      make_arithmetic_effect fn regs mem da =
        .error "Value must be in the range -8388608 to 8388607") := by
  constructor
  · intro hr
    obtain ⟨i, hi, hto⟩ := Int24.from_int_roundtrip hr.1 hr.2
    refine ⟨i.toUInt24, ?_, ?_⟩
    · simp only [make_arithmetic_effect]
      rw [hi]
    · have : (i.toUInt24).toInt24 = i := rfl
      rw [this, hto]
  · intro hr
    simp only [make_arithmetic_effect]
    rw [Int24.from_int_error hr]

/-- C4 (amended): `make_arithmetic_effect` (used for `ADD` and `SUB`) reads
the accumulator UNSIGNED (`UInt24.to_int`) and the 3-byte memory operand
signed; when `fn a v` lies in the signed 24-bit range, the accumulator
receives its two's-complement encoding (reading the new accumulator back as
signed gives exactly `fn a v`); outside that range the effect raises
`ValueError` instead of wrapping. -/
theorem C4_arithmetic_semantics (regs : RegFile) (mem : Nat → Nat) (da : Nat)
    (fn : Int → Int → Int) (hfn : fn = addLambda ∨ fn = subLambda) :
    (((-8388608 : Int) ≤ fn (regs.A.to_int : Int) (get_word mem da).toInt24.to_int ∧
       fn (regs.A.to_int : Int) (get_word mem da).toInt24.to_int ≤ 8388607) →
      ∃ a' : UInt24, make_arithmetic_effect fn regs mem da = .ok { regs with A := a' } ∧
        a'.toInt24.to_int =
          fn (regs.A.to_int : Int) (get_word mem da).toInt24.to_int) ∧
    ((fn (regs.A.to_int : Int) (get_word mem da).toInt24.to_int < -8388608 ∨
      (8388607 : Int) < fn (regs.A.to_int : Int) (get_word mem da).toInt24.to_int) →
      make_arithmetic_effect fn regs mem da =
        .error "Value must be in the range -8388608 to 8388607") :=
  make_arith_spec fn regs mem da

/-- Witness for C4's amended theorem: `ADD` with accumulator 5 and memory
word 7 at address 0 rewrites the accumulator to (signed) 12. -/
theorem C4_arithmetic_semantics_witness :
    ∃ a' : UInt24,
      make_arithmetic_effect addLambda
          ⟨⟨0, 0, 5⟩, ⟨0, 0, 0⟩, ⟨0, 0, 0⟩, ⟨0, 0, 0⟩, ⟨0, 0, 0⟩, ⟨0, 0, 0⟩⟩
          (fun a => if a = 2 then 7 else 0) 0 =
        .ok { (⟨⟨0, 0, 5⟩, ⟨0, 0, 0⟩, ⟨0, 0, 0⟩, ⟨0, 0, 0⟩, ⟨0, 0, 0⟩,
            ⟨0, 0, 0⟩⟩ : RegFile) with A := a' } ∧
      a'.toInt24.to_int = addLambda
        ((UInt24.to_int ⟨0, 0, 5⟩ : Nat) : Int)
        (get_word (fun a => if a = 2 then 7 else 0) 0).toInt24.to_int :=
  (C4_arithmetic_semantics
    ⟨⟨0, 0, 5⟩, ⟨0, 0, 0⟩, ⟨0, 0, 0⟩, ⟨0, 0, 0⟩, ⟨0, 0, 0⟩, ⟨0, 0, 0⟩⟩
    (fun a => if a = 2 then 7 else 0) 0 addLambda (Or.inl rfl)).1 (by decide)

/-- C4 counterexample: with accumulator bit pattern `0xFFFFFF` (signed −1)
and memory operand 0, the claimed all-signed semantics would succeed and
leave the accumulator at the encoding of −1 + 0 = −1 (bit pattern
`0xFFFFFF`); the code instead reads the accumulator as unsigned 16777215 and
raises `ValueError` because 16777215 + 0 exceeds the signed 24-bit range. -/
theorem C4_signed_interpretation_counterexample :
    (UInt24.toInt24 ⟨255, 255, 255⟩).to_int = -1 ∧
    (get_word (fun _ => 0) 0).toInt24.to_int = 0 ∧
    make_arithmetic_effect addLambda
        ⟨⟨255, 255, 255⟩, ⟨0, 0, 0⟩, ⟨0, 0, 0⟩, ⟨0, 0, 0⟩, ⟨0, 0, 0⟩, ⟨0, 0, 0⟩⟩
        (fun _ => 0) 0 =
      .error "Value must be in the range -8388608 to 8388607" := by
  exact ⟨by decide, by decide, rfl⟩

/-! Facts about the run loop's program-counter discipline (for C5). -/

theorem onOk_eq_next {α : Type} {e : Except String α} {k : α → StepOutcome}
    {s' : SimState} (h : onOk e k = .next s') :
    ∃ u, e = .ok u ∧ k u = .next s' := by
  cases e with
  | error msg => cases h
  | ok u => exact ⟨u, rfl, h⟩

theorem onOk_eq_halted {α : Type} {e : Except String α} {k : α → StepOutcome}
    (h : onOk e k = .halted) : ∃ u, e = .ok u ∧ k u = .halted := by
  cases e with
  | error msg => cases h
  | ok u => exact ⟨u, rfl, h⟩

theorem onOk_of_ok {α : Type} {e : Except String α} {u : α} (h : e = .ok u)
    (k : α → StepOutcome) : onOk e k = k u := by
  rw [h]
  rfl

theorem dispatch_of_some {o : Option Mnemonic} {m : Mnemonic} (h : o = some m)
    (missing : StepOutcome) (k : Mnemonic → StepOutcome) :
    dispatch o missing k = k m := by
  rw [h]
  rfl

theorem dispatch_of_none {o : Option Mnemonic} (h : o = none)
    (missing : StepOutcome) (k : Mnemonic → StepOutcome) :
    dispatch o missing k = missing := by
  rw [h]
  rfl

theorem code_lut_inv {c : Nat} {m : Mnemonic} (h : code_lut c = some m) :
    c = opcodeNum m := by
  unfold code_lut at h
  split at h <;> cases h <;> rfl

/-- Every effect other than the six jump-family ones leaves PC untouched
whenever it completes. -/
theorem run_effect_pc_preserved (op : Mnemonic) (s : SimState) (da : Nat)
    (s' : SimState)
    (hop : ¬(op = .J ∨ op = .JEQ ∨ op = .JLT ∨ op = .JGT ∨ op = .JSUB ∨ op = .RSUB))
    (h : run_effect op s da = .next s') :
    s'.regs.PC = s.regs.PC := by
  cases op with
  | J => exact (hop (Or.inl rfl)).elim
  | JEQ => exact (hop (Or.inr (Or.inl rfl))).elim
  | JLT => exact (hop (Or.inr (Or.inr (Or.inl rfl)))).elim
  | JGT => exact (hop (Or.inr (Or.inr (Or.inr (Or.inl rfl))))).elim
  | JSUB => exact (hop (Or.inr (Or.inr (Or.inr (Or.inr (Or.inl rfl)))))).elim
  | RSUB => exact (hop (Or.inr (Or.inr (Or.inr (Or.inr (Or.inr rfl)))))).elim
  | STCH => cases h
  | HLT => cases h
  | TIX =>
    have h' : onOk (UInt24.from_int ((s.regs.X.to_int : Int) + 1)) (fun x' =>
        .next { s with regs :=
          { s.regs with X := x', SW := compare_sw x' (get_word s.mem da) } })
        = .next s' := h
    obtain ⟨x', hfi, hk⟩ := onOk_eq_next h'
    cases hk
    rfl
  | ADD =>
    have h' : onOk (make_arithmetic_effect addLambda s.regs s.mem da)
        (fun regs' => .next { s with regs := regs' }) = .next s' := h
    obtain ⟨regs', hma, hk⟩ := onOk_eq_next h'
    cases hk
    exact (make_arith_only_A hma).1
  | SUB =>
    have h' : onOk (make_arithmetic_effect subLambda s.regs s.mem da)
        (fun regs' => .next { s with regs := regs' }) = .next s' := h
    obtain ⟨regs', hma, hk⟩ := onOk_eq_next h'
    cases hk
    exact (make_arith_only_A hma).1
  | RD =>
    obtain ⟨regs, mem, input, output⟩ := s
    cases input with
    | nil => cases h
    | cons c rest =>
      cases h
      rfl
  | LDA => cases h; rfl
  | LDCH => cases h; rfl
  | LDX => cases h; rfl
  | LDL => cases h; rfl
  | LDS => cases h; rfl
  | STA => cases h; rfl
  | STX => cases h; rfl
  | STL => cases h; rfl
  | STS => cases h; rfl
  | COMP => cases h; rfl
  | WD => cases h; rfl
  | NOP => cases h; rfl

/-- Only the `HLT` effect produces the halt outcome. -/
theorem jump_to_ne_halted (s : SimState) (da : Nat) (h : jump_to s da = .halted) :
    False := by
  have h' : onOk (UInt24.from_int (da : Int)) (fun u =>
      .next { s with regs := { s.regs with PC := u } }) = .halted := h
  obtain ⟨u, _, hk⟩ := onOk_eq_halted h'
  cases hk

theorem run_effect_halted (op : Mnemonic) (s : SimState) (da : Nat)
    (h : run_effect op s da = .halted) : op = .HLT := by
  cases op with
  | HLT => rfl
  | TIX =>
    have h' : onOk (UInt24.from_int ((s.regs.X.to_int : Int) + 1)) (fun x' =>
        .next { s with regs :=
          { s.regs with X := x', SW := compare_sw x' (get_word s.mem da) } })
        = .halted := h
    obtain ⟨x', _, hk⟩ := onOk_eq_halted h'
    cases hk
  | ADD =>
    have h' : onOk (make_arithmetic_effect addLambda s.regs s.mem da)
        (fun regs' => .next { s with regs := regs' }) = .halted := h
    obtain ⟨regs', _, hk⟩ := onOk_eq_halted h'
    cases hk
  | SUB =>
    have h' : onOk (make_arithmetic_effect subLambda s.regs s.mem da)
        (fun regs' => .next { s with regs := regs' }) = .halted := h
    obtain ⟨regs', _, hk⟩ := onOk_eq_halted h'
    cases hk
  | RD =>
    obtain ⟨regs, mem, input, output⟩ := s
    cases input with
    | nil => cases h
    | cons c rest => cases h
  | J => exact (jump_to_ne_halted s da h).elim
  | JSUB =>
    exact (jump_to_ne_halted { s with regs := { s.regs with L := s.regs.PC } } da h).elim
  | JEQ =>
    have h' : (if s.regs.SW.to_int = 0 then jump_to s da else .next s) = .halted := h
    split at h'
    · exact (jump_to_ne_halted _ _ h').elim
    · cases h'
  | JLT =>
    have h' : (if s.regs.SW.to_int = 1 then jump_to s da else .next s) = .halted := h
    split at h'
    · exact (jump_to_ne_halted _ _ h').elim
    · cases h'
  | JGT =>
    have h' : (if s.regs.SW.to_int = 2 then jump_to s da else .next s) = .halted := h
    split at h'
    · exact (jump_to_ne_halted _ _ h').elim
    · cases h'
  | RSUB => cases h
  | LDA => cases h
  | LDCH => cases h
  | LDX => cases h
  | LDL => cases h
  | LDS => cases h
  | STA => cases h
  | STCH => cases h
  | STX => cases h
  | STL => cases h
  | STS => cases h
  | COMP => cases h
  | WD => cases h
  | NOP => cases h

/-- C5 (amended): (1) any instruction the run loop completes without a
jump-family opcode (`J`, conditional jumps, `JSUB`, `RSUB` — the effects that
may rewrite PC) leaves the program counter advanced by exactly 3; (2) the
loop's halt outcome occurs exactly on the `HLT` opcode (22); there is no
terminal-address check anywhere in the loop (see the counterexample
theorem). -/
theorem C5_pc_advance_and_halt :
    (∀ s s' : SimState, sim_step s = .next s' →
      s'.regs.PC.to_int = s.regs.PC.to_int + 3 ∨
      (∃ m, code_lut (s.mem s.regs.PC.to_int) = some m ∧
        (m = .J ∨ m = .JEQ ∨ m = .JLT ∨ m = .JGT ∨ m = .JSUB ∨ m = .RSUB))) ∧
    (∀ s : SimState, s.regs.PC.to_int + 3 ≤ 16777215 →
      (sim_step s = .halted ↔ s.mem s.regs.PC.to_int = 22)) := by
  have hstep : ∀ s : SimState, sim_step s =
      dispatch (code_lut (s.mem s.regs.PC.to_int))
        (.unknownOpcode (s.mem s.regs.PC.to_int)) (fun op =>
          onOk (UInt24.from_int ((s.regs.PC.to_int : Int) + 3)) fun pc' =>
            run_effect op { s with regs := { s.regs with PC := pc' } }
              (SICFormatObjectCode.address
                  ⟨s.mem s.regs.PC.to_int,
                    s.mem (s.regs.PC.to_int + 1) + 256 * s.mem (s.regs.PC.to_int + 2)⟩ +
                (if SICFormatObjectCode.indexed
                    ⟨s.mem s.regs.PC.to_int,
                      s.mem (s.regs.PC.to_int + 1) + 256 * s.mem (s.regs.PC.to_int + 2)⟩
                  then s.regs.X.to_int else 0))) := fun s => rfl
  constructor
  · intro s s' h
    by_cases hj : ∃ m, code_lut (s.mem s.regs.PC.to_int) = some m ∧
        (m = .J ∨ m = .JEQ ∨ m = .JLT ∨ m = .JGT ∨ m = .JSUB ∨ m = .RSUB)
    · exact Or.inr hj
    · left
      have h1 := (hstep s).symm.trans h
      cases hcl : code_lut (s.mem s.regs.PC.to_int) with
      | none =>
        rw [dispatch_of_none hcl] at h1
        cases h1
      | some m =>
        rw [dispatch_of_some hcl] at h1
        have h2 : onOk (UInt24.from_int ((s.regs.PC.to_int : Int) + 3)) (fun pc' =>
            run_effect m { s with regs := { s.regs with PC := pc' } }
              (SICFormatObjectCode.address
                  ⟨s.mem s.regs.PC.to_int,
                    s.mem (s.regs.PC.to_int + 1) + 256 * s.mem (s.regs.PC.to_int + 2)⟩ +
                (if SICFormatObjectCode.indexed
                    ⟨s.mem s.regs.PC.to_int,
                      s.mem (s.regs.PC.to_int + 1) + 256 * s.mem (s.regs.PC.to_int + 2)⟩
                  then s.regs.X.to_int else 0))) = .next s' := h1
        obtain ⟨pcu, hfi, hk⟩ := onOk_eq_next h2
        have hpcu : (pcu.to_int : Int) = (s.regs.PC.to_int : Int) + 3 :=
          UInt24.from_int_to_int hfi
        have hnj : ¬(m = .J ∨ m = .JEQ ∨ m = .JLT ∨ m = .JGT ∨ m = .JSUB ∨
            m = .RSUB) := fun hc => hj ⟨m, hcl, hc⟩
        have hpc : s'.regs.PC = pcu := run_effect_pc_preserved m _ _ _ hnj hk
        rw [hpc]
        omega
  · intro s hbound
    constructor
    · intro h
      have h1 := (hstep s).symm.trans h
      cases hcl : code_lut (s.mem s.regs.PC.to_int) with
      | none =>
        rw [dispatch_of_none hcl] at h1
        cases h1
      | some m =>
        rw [dispatch_of_some hcl] at h1
        have h2 : onOk (UInt24.from_int ((s.regs.PC.to_int : Int) + 3)) (fun pc' =>
            run_effect m { s with regs := { s.regs with PC := pc' } }
              (SICFormatObjectCode.address
                  ⟨s.mem s.regs.PC.to_int,
                    s.mem (s.regs.PC.to_int + 1) + 256 * s.mem (s.regs.PC.to_int + 2)⟩ +
                (if SICFormatObjectCode.indexed
                    ⟨s.mem s.regs.PC.to_int,
                      s.mem (s.regs.PC.to_int + 1) + 256 * s.mem (s.regs.PC.to_int + 2)⟩
                  then s.regs.X.to_int else 0))) = .halted := h1
        obtain ⟨pcu, hfi, hk⟩ := onOk_eq_halted h2
        have hm : m = .HLT := run_effect_halted m _ _ hk
        subst hm
        have := code_lut_inv hcl
        simpa using this
    · intro hm
      have hcl : code_lut (s.mem s.regs.PC.to_int) = some .HLT := by
        rw [hm]
        rfl
      obtain ⟨u, hu⟩ := UInt24.from_int_ok_of_range
        (show (0 : Int) ≤ (s.regs.PC.to_int : Int) + 3 by omega)
        (show ((s.regs.PC.to_int : Int) + 3) ≤ 16777215 by omega)
      rw [hstep s, dispatch_of_some hcl, onOk_of_ok hu]
      rfl

/-- Witness for C5's amended theorem: a state whose memory is all-HLT bytes
(opcode 22) halts the loop. -/
theorem C5_pc_advance_and_halt_witness :
    sim_step ⟨⟨⟨0, 0, 0⟩, ⟨0, 0, 0⟩, ⟨0, 0, 0⟩, ⟨0, 0, 0⟩, ⟨0, 0, 0⟩, ⟨0, 0, 0⟩⟩,
        fun _ => 22, [], []⟩ = .halted ↔
      (fun (_ : Nat) => 22) (UInt24.to_int ⟨0, 0, 0⟩) = 22 :=
  C5_pc_advance_and_halt.2
    ⟨⟨⟨0, 0, 0⟩, ⟨0, 0, 0⟩, ⟨0, 0, 0⟩, ⟨0, 0, 0⟩, ⟨0, 0, 0⟩, ⟨0, 0, 0⟩⟩,
      fun _ => 22, [], []⟩ (by decide)

/-- C5 counterexample to the terminal-address claim: load `progNop` at base
0; the loader reports terminal address 3.  Starting the run loop at the
execution address 0, the first step executes the `NOP` and advances PC to 3
(the terminal address) — and the loop does not stop: the next step fetches
and executes the instruction at address 3 (byte 0 = `LDA`), advancing PC to
6.  Execution thus proceeds to an instruction at the terminal address,
contradicting the claim. -/
theorem C5_terminal_not_enforced_counterexample :
    ∃ r, load_program 32767 (fun _ => 0) progNop 0 = .ok r ∧
      r.terminal_address = 3 ∧
      ∃ s1, sim_step ⟨⟨⟨0, 0, 0⟩, ⟨0, 0, 0⟩, ⟨0, 0, 0⟩, ⟨0, 0, 0⟩, ⟨0, 0, 0⟩,
          ⟨0, 0, 0⟩⟩, r.mem, [], []⟩ = .next s1 ∧
        s1.regs.PC.to_int = r.terminal_address ∧
        ∃ s2, sim_step s1 = .next s2 ∧ s2.regs.PC.to_int = 6 := by
  refine ⟨_, rfl, rfl, ?_⟩
  refine ⟨_, rfl, by decide, ?_⟩
  exact ⟨_, rfl, by decide⟩

/-- C3 counterexample: the claim says `WORD 65536` encodes to the
little-endian bytes 0x00, 0x00, 0x01.  `parse_word_operand` stores the value
through `UInt24.from_int`, whose `byte1` (first byte in memory) is the MOST
significant byte, so the serialized bytes are 0x01, 0x00, 0x00. -/
theorem C3_word_little_endian_counterexample :
    (parse_word_operand "65536").map UInt24.toBytes = .ok [0x01, 0x00, 0x00] ∧
    ¬((parse_word_operand "65536").map UInt24.toBytes = .ok [0x00, 0x00, 0x01]) := by
  exact ⟨by decide, by decide⟩

/-- C3 (amended): `WORD 65536` encodes to the 3-byte two's-complement
representation with the MOST significant byte first (0x01, 0x00, 0x00 in
memory order), and operand 70000000 — outside the signed 24-bit range — is
rejected with the WORD operand error. -/
theorem C3_word_encoding :
    (parse_word_operand "65536").map UInt24.toBytes = .ok [0x01, 0x00, 0x00] ∧
    parse_word_operand "70000000" = .error "Invalid operand for WORD directive" := by
  exact ⟨by decide, by decide⟩

/-- C7: the tokenizer only skips a line when it is empty or when it starts
with `#` at column 0 (the code rstrips — not lstrips — before testing
`startswith("#")`).  A comment line with leading whitespace, or a line of
only whitespace, is NOT dropped: it yields an empty token group, which
`parse_instruction` rejects, so assembling such a program raises — against
the claim (and the code's own `Skip empty lines and comments` intent).  The
same program with the comment at column 0 (or the blank line removed)
assembles fine. -/
theorem C7_comment_and_blank_lines :
    tokenize ["#c"] = [] ∧
    tokenize [""] = [] ∧
    tokenize [" #c"] = [(1, [])] ∧
    tokenize ["   "] = [(1, [])] ∧
    parse_and_create_symtab
        (tokenize ["TEST START 1000", " #c", "HLT", " END"]) =
      .error "Invalid instruction format" ∧
    parse_and_create_symtab
        (tokenize ["TEST START 1000", "   ", "HLT", " END"]) =
      .error "Invalid instruction format" ∧
    (parse_and_create_symtab
        (tokenize ["TEST START 1000", "#c", "HLT", " END"])).isOk = true := by
  refine ⟨by decide, by decide, by decide, by decide, ?_, ?_, ?_⟩
  · decide
  · decide
  · decide

theorem spec_label_ok_iff (s : String) :
    spec_label_ok s = true ↔
      (1 ≤ s.toList.length ∧ s.toList.length ≤ 6 ∧ s.toList.all isUpperAZ = true) := by
  unfold spec_label_ok
  simp [Bool.and_eq_true, and_assoc]

theorem labelMatch_iff_chars (s : String) :
    labelMatch s = true ↔
      ((1 ≤ s.toList.length ∧ s.toList.length ≤ 6 ∧ s.toList.all isUpperAZ = true) ∨
       ∃ ts : List Char, s.toList = ts ++ ['\n'] ∧ 1 ≤ ts.length ∧ ts.length ≤ 6 ∧
         ts.all isUpperAZ = true) := by
  unfold labelMatch
  generalize s.toList = cs
  constructor
  · intro h
    rw [List.any_eq_true] at h
    obtain ⟨i, hi, hcond⟩ := h
    rw [List.mem_range] at hi
    simp only [Bool.and_eq_true, decide_eq_true_eq] at hcond
    obtain ⟨⟨hlen, hall⟩, hdollar⟩ := hcond
    unfold reDollarAt at hdollar
    simp only [Bool.or_eq_true, decide_eq_true_eq] at hdollar
    have hsplit := List.take_append_drop (i + 1) cs
    cases hdollar with
    | inl hnil =>
      rw [hnil, List.append_nil] at hsplit
      left
      refine ⟨?_, ?_, ?_⟩
      · rw [← hsplit, hlen]; omega
      · rw [← hsplit, hlen]; omega
      · rw [← hsplit]; exact hall
    | inr hnl =>
      rw [hnl] at hsplit
      right
      exact ⟨cs.take (i + 1), hsplit.symm, by rw [hlen]; omega, by rw [hlen]; omega, hall⟩
  · intro h
    rw [List.any_eq_true]
    cases h with
    | inl hok =>
      obtain ⟨h1, h6, hall⟩ := hok
      refine ⟨cs.length - 1, by rw [List.mem_range]; omega, ?_⟩
      simp only [Bool.and_eq_true, decide_eq_true_eq]
      rw [(show cs.length - 1 + 1 = cs.length by omega), List.take_length,
        List.drop_length]
      exact ⟨⟨rfl, hall⟩, by decide⟩
    | inr hnl =>
      obtain ⟨ts, heq, h1, h6, hall⟩ := hnl
      subst heq
      refine ⟨ts.length - 1, by rw [List.mem_range]; omega, ?_⟩
      simp only [Bool.and_eq_true, decide_eq_true_eq]
      rw [(show ts.length - 1 + 1 = ts.length by omega), List.take_left,
        List.drop_left]
      refine ⟨⟨rfl, hall⟩, ?_⟩
      unfold reDollarAt
      simp

/-- C9 counterexample: the label pattern is checked with Python `re.match`
whose `$` also matches just before one trailing newline, so the string
`"A\n"` — which is not 1-6 uppercase letters — passes the label check, and
the instruction builder accepts an instruction labelled `"A\n"` instead of
rejecting it. -/
theorem C9_label_newline_counterexample :
    spec_label_ok "A\n" = false ∧
    labelMatch "A\n" = true ∧
    parse_and_determine_size
        ⟨"NOP", .op .NOP, 0, 1, some "A\n", none, .empty⟩ =
      .ok (3, .opcode none false) := by
  exact ⟨by decide, by decide, by decide⟩

/-- C9 (amended): the builder's label pattern accepts exactly the strings of
1 to 6 uppercase letters, optionally followed by one trailing newline (an
artifact of Python's `$` semantics); whenever an instruction's label is
nonempty and fails that pattern, `parse_and_determine_size` fails with the
invalid-label error; but the empty-string label skips validation entirely
(Python's `if instruction.label:` truthiness guard) and is accepted without
any error. -/
theorem C9_label_validation :
    (∀ s : String, labelMatch s = true ↔
      (spec_label_ok s = true ∨
       ∃ t : String, s.toList = t.toList ++ ['\n'] ∧ spec_label_ok t = true)) ∧
    (∀ (i : Instruction) (l : String), i.label = some l → l ≠ "" →
      labelMatch l = false →
      parse_and_determine_size i = .error "Invalid label") ∧
    (spec_label_ok "" = false ∧ labelMatch "" = false ∧
      parse_and_determine_size ⟨"NOP", .op .NOP, 0, 1, some "", none, .empty⟩ =
        .ok (3, .opcode none false)) := by
  refine ⟨?_, ?_, ?_⟩
  · intro s
    rw [labelMatch_iff_chars]
    constructor
    · rintro (h | ⟨ts, hts, h1, h6, hall⟩)
      · left
        rw [spec_label_ok_iff]
        exact h
      · right
        refine ⟨String.mk ts, hts, ?_⟩
        rw [spec_label_ok_iff]
        exact ⟨h1, h6, hall⟩
    · rintro (h | ⟨t, ht, hok⟩)
      · left
        rw [spec_label_ok_iff] at h
        exact h
      · right
        rw [spec_label_ok_iff] at hok
        exact ⟨t.toList, ht, hok.1, hok.2.1, hok.2.2⟩
  · intro i l hl hne hm
    simp [parse_and_determine_size, hl, hne, hm]
  · exact ⟨by decide, by decide, by decide⟩

/-- Witness for C9: the label `"a!"` fails the pattern and the size pass
rejects the instruction with the invalid-label error. -/
theorem C9_label_validation_witness :
    (⟨"NOP", .op .NOP, 0, 1, some "a!", none, .empty⟩ : Instruction).label =
      some "a!" ∧
    "a!" ≠ "" ∧
    labelMatch "a!" = false ∧
    parse_and_determine_size ⟨"NOP", .op .NOP, 0, 1, some "a!", none, .empty⟩ =
      .error "Invalid label" :=
  ⟨rfl, by decide, by decide,
   C9_label_validation.2.1 ⟨"NOP", .op .NOP, 0, 1, some "a!", none, .empty⟩ "a!"
     rfl (by decide) (by decide)⟩

/-- Every chunk the grouping loop yields has byte length at most 30, provided
every instruction's contribution is at most 30 bytes and the running chunk is
within bounds. -/
theorem group_go_bound (instrs : List Instruction) :
    ∀ (chunk : List Instruction) (len : Nat)
      (gs : List (List Instruction × Nat)),
      (∀ i ∈ instrs, ∀ n, insLength i = .ok n → n ≤ 30) →
      len ≤ 30 →
      group_go instrs chunk len = .ok gs →
      ∀ p ∈ gs, p.2 ≤ 30 := by
  induction instrs with
  | nil =>
    intro chunk len gs _ hlen h p hp
    have h' : (Except.ok (if chunk = [] then ([] : List (List Instruction × Nat))
        else [(chunk, len)]) :
        Except String (List (List Instruction × Nat))) = .ok gs := h
    injection h' with he
    subst he
    split at hp
    · simp at hp
    · rw [List.mem_singleton] at hp
      subst hp
      exact hlen
  | cons i rest ih =>
    intro chunk len gs hins hlen h
    have hins' : ∀ j ∈ rest, ∀ n, insLength j = .ok n → n ≤ 30 :=
      fun j hj => hins j (List.mem_cons_of_mem _ hj)
    have hi30 : ∀ n, insLength i = .ok n → n ≤ 30 :=
      hins i (List.mem_cons_self _ _)
    have h' : (if i.op = .dir .RESB || i.op = .dir .RESW then
        (if chunk = [] then group_go rest chunk len
         else (group_go rest [] 0).map (fun gs => (chunk, len) :: gs))
      else match insLength i with
        | .error e => .error e
        | .ok ins_length =>
          if len + ins_length > 30 then
            (group_go rest [i] ins_length).map (fun gs => (chunk, len) :: gs)
          else group_go rest (chunk ++ [i]) (len + ins_length)) = .ok gs := h
    clear h
    split at h'
    · split at h'
      · exact ih chunk len gs hins' hlen h'
      · cases hrec : group_go rest [] 0 with
        | error e =>
          rw [hrec] at h'
          exact Except.noConfusion (show (Except.error e :
            Except String (List (List Instruction × Nat))) = .ok gs from h')
        | ok gs' =>
          rw [hrec] at h'
          have h'' : (Except.ok ((chunk, len) :: gs') :
              Except String (List (List Instruction × Nat))) = .ok gs := h'
          injection h'' with he
          subst he
          intro p hp
          rcases List.mem_cons.mp hp with rfl | hp'
          · exact hlen
          · exact ih [] 0 gs' hins' (by omega) hrec p hp'
    · cases hlen_i : insLength i with
      | error e =>
        rw [hlen_i] at h'
        exact Except.noConfusion (show (Except.error e :
          Except String (List (List Instruction × Nat))) = .ok gs from h')
      | ok n =>
        rw [hlen_i] at h'
        have h'' : (if len + n > 30 then
            (group_go rest [i] n).map (fun gs => (chunk, len) :: gs)
          else group_go rest (chunk ++ [i]) (len + n)) = .ok gs := h'
        clear h'
        split at h''
        · cases hrec : group_go rest [i] n with
          | error e =>
            rw [hrec] at h''
            exact Except.noConfusion (show (Except.error e :
              Except String (List (List Instruction × Nat))) = .ok gs from h'')
          | ok gs' =>
            rw [hrec] at h''
            have h3 : (Except.ok ((chunk, len) :: gs') :
                Except String (List (List Instruction × Nat))) = .ok gs := h''
            injection h3 with he
            subst he
            intro p hp
            rcases List.mem_cons.mp hp with rfl | hp'
            · exact hlen
            · exact ih [i] n gs' hins' (hi30 n hlen_i) hrec p hp'
        · next hfit =>
          exact ih (chunk ++ [i]) (len + n) gs hins' (by omega) h''

/-- A `RESB`/`RESW` instruction flushes a nonempty chunk unconditionally. -/
theorem group_go_res_flush (i : Instruction) (rest chunk : List Instruction)
    (len : Nat) (hres : i.op = .dir .RESB ∨ i.op = .dir .RESW)
    (hch : chunk ≠ []) :
    group_go (i :: rest) chunk len =
      (group_go rest [] 0).map (fun gs => (chunk, len) :: gs) := by
  have h' : group_go (i :: rest) chunk len =
      (if i.op = .dir .RESB || i.op = .dir .RESW then
        (if chunk = [] then group_go rest chunk len
         else (group_go rest [] 0).map (fun gs => (chunk, len) :: gs))
      else match insLength i with
        | .error e => .error e
        | .ok ins_length =>
          if len + ins_length > 30 then
            (group_go rest [i] ins_length).map (fun gs => (chunk, len) :: gs)
          else group_go rest (chunk ++ [i]) (len + ins_length)) := rfl
  rw [h']
  split
  · rfl
  · next hc =>
    exact absurd (by rcases hres with h | h <;> simp [h]) hc

/-- An instruction that would push the chunk past 30 bytes flushes the current
chunk first, and the new chunk starts with exactly that instruction. -/
theorem group_go_overflow_flush (i : Instruction) (rest chunk : List Instruction)
    (len n : Nat) (h1 : ¬ i.op = .dir .RESB) (h2 : ¬ i.op = .dir .RESW)
    (hn : insLength i = .ok n) (hover : len + n > 30) :
    group_go (i :: rest) chunk len =
      (group_go rest [i] n).map (fun gs => (chunk, len) :: gs) := by
  have h' : group_go (i :: rest) chunk len =
      (if i.op = .dir .RESB || i.op = .dir .RESW then
        (if chunk = [] then group_go rest chunk len
         else (group_go rest [] 0).map (fun gs => (chunk, len) :: gs))
      else match insLength i with
        | .error e => .error e
        | .ok ins_length =>
          if len + ins_length > 30 then
            (group_go rest [i] ins_length).map (fun gs => (chunk, len) :: gs)
          else group_go rest (chunk ++ [i]) (len + ins_length)) := rfl
  rw [h', hn]
  split
  · next hc => simp [h1, h2] at hc
  · show (if len + n > 30 then
        (group_go rest [i] n).map (fun gs => (chunk, len) :: gs)
      else group_go rest (chunk ++ [i]) (len + n)) = _
    rw [if_pos hover]

/-- The size-pass bounds every instruction's byte contribution by 30: the
BYTE branch rejects operands outside 1..30 bytes, and every other chunked
instruction contributes exactly 3 bytes. -/
theorem parse_size_insLength_le (i : Instruction) (sz : Int) (ctx : ParsedCtx)
    (h : parse_and_determine_size i = .ok (sz, ctx)) (n : Nat)
    (hn : insLength { i with ctx := ctx } = .ok n) : n ≤ 30 := by
  obtain ⟨nm, op, loc, ln, lb, opn, c0⟩ := i
  cases op with
  | op m =>
    have hn' : (Except.ok 3 : Except String Nat) = .ok n := hn
    injection hn' with e
    omega
  | dir d =>
    cases d with
    | START =>
      exact Except.noConfusion (show (Except.error
        "Invalid instruction in text record grouping" : Except String Nat) =
        .ok n from hn)
    | «END» =>
      exact Except.noConfusion (show (Except.error
        "Invalid instruction in text record grouping" : Except String Nat) =
        .ok n from hn)
    | RESB =>
      exact Except.noConfusion (show (Except.error
        "Invalid instruction in text record grouping" : Except String Nat) =
        .ok n from hn)
    | RESW =>
      exact Except.noConfusion (show (Except.error
        "Invalid instruction in text record grouping" : Except String Nat) =
        .ok n from hn)
    | WORD =>
      have hn' : (Except.ok 3 : Except String Nat) = .ok n := hn
      injection hn' with e
      omega
    | BYTE =>
      simp only [parse_and_determine_size] at h
      repeat' split at h
      all_goals try exact Except.noConfusion h
      rename_i value heq2 hcond
      injection h with hp
      have hctx : ParsedCtx.byte value = ctx := congrArg Prod.snd hp
      rw [← hctx] at hn
      have hn' : (Except.ok value.length : Except String Nat) = .ok n := hn
      injection hn' with e
      simp only [Bool.and_eq_true, decide_eq_true_eq] at hcond
      omega

/-- Every instruction produced by the symbol-table pass has `insLength` at
most 30 (when defined), given the accumulated instructions already do. -/
theorem symtab_loop_insLength (tokens : List (Nat × List String)) :
    ∀ (symtab : List (String × Int)) (instrs : List Instruction)
      (sa lc : Int) (symtab' : List (String × Int))
      (instrs' : List Instruction) (plen : Int),
      (∀ i ∈ instrs, ∀ n, insLength i = .ok n → n ≤ 30) →
      symtab_loop tokens symtab instrs sa lc = .ok (symtab', instrs', plen) →
      ∀ i ∈ instrs', ∀ n, insLength i = .ok n → n ≤ 30 := by
  induction tokens with
  | nil =>
    intro symtab instrs sa lc s' i' p' hacc h
    have h' : (Except.ok (symtab, instrs, lc - sa) :
        Except String (List (String × Int) × List Instruction × Int)) =
        .ok (s', i', p') := h
    injection h' with he
    have hi : instrs = i' := congrArg (fun t => t.2.1) he
    rw [← hi]
    exact hacc
  | cons t rest ih =>
    obtain ⟨line_number, token⟩ := t
    intro symtab instrs sa lc s' i' p' hacc h
    simp only [symtab_loop] at h
    split at h
    · exact Except.noConfusion h
    · next instruction hpi =>
      split at h
      · exact Except.noConfusion h
      · next size ctx hps =>
        have hacc' : ∀ j ∈ instrs ++ [{instruction with ctx := ctx}],
            ∀ n, insLength j = .ok n → n ≤ 30 := by
          intro j hj n hn
          rcases List.mem_append.mp hj with hj' | hj'
          · exact hacc j hj' n hn
          · rw [List.mem_singleton] at hj'
            subst hj'
            exact parse_size_insLength_le instruction size ctx hps n hn
        exact ih _ _ _ _ s' i' p' hacc' h

/-- C6: text-record chunking.  (1) For every instruction list produced by the
assembler's symbol-table pass, grouping the instructions between START and END
never yields a chunk whose payload length exceeds 30 bytes.  (2) A RESB/RESW
directive flushes the current nonempty chunk even when it is under the limit.
(3) An instruction whose bytes would push the chunk total past 30 flushes the
chunk first, and the new chunk starts with exactly that instruction (so the
next text record starts at that instruction's address). -/
theorem C6_text_record_chunking :
    (∀ (tokens : List (Nat × List String)) (symtab : List (String × Int))
       (instrs : List Instruction) (plen : Int)
       (gs : List (List Instruction × Nat)),
      parse_and_create_symtab tokens = .ok (symtab, instrs, plen) →
      group_instructions_for_text_record ((instrs.drop 1).dropLast) = .ok gs →
      ∀ p ∈ gs, p.2 ≤ 30) ∧
    (∀ (i : Instruction) (rest chunk : List Instruction) (len : Nat),
      (i.op = .dir .RESB ∨ i.op = .dir .RESW) → chunk ≠ [] →
      group_go (i :: rest) chunk len =
        (group_go rest [] 0).map (fun gs => (chunk, len) :: gs)) ∧
    (∀ (i : Instruction) (rest chunk : List Instruction) (len n : Nat),
      ¬ i.op = .dir .RESB → ¬ i.op = .dir .RESW →
      insLength i = .ok n → len + n > 30 →
      group_go (i :: rest) chunk len =
        (group_go rest [i] n).map (fun gs => (chunk, len) :: gs)) := by
  refine ⟨?_, group_go_res_flush, group_go_overflow_flush⟩
  intro tokens symtab instrs plen gs hsym hgroup
  have hsizes : ∀ i ∈ instrs, ∀ n, insLength i = .ok n → n ≤ 30 :=
    symtab_loop_insLength tokens [] [] 0 0 symtab instrs plen
      (fun i hi => absurd hi (List.not_mem_nil i)) hsym
  have hmid : ∀ i ∈ (instrs.drop 1).dropLast, ∀ n, insLength i = .ok n → n ≤ 30 :=
    fun i hi => hsizes i (List.drop_subset 1 instrs (List.dropLast_subset _ hi))
  exact group_go_bound ((instrs.drop 1).dropLast) [] 0 gs hmid (by omega) hgroup

/-- Witness for C6: a concrete RESB instruction flushes a concrete nonempty
chunk. -/
theorem C6_text_record_chunking_witness :
    ((⟨"RESB", .dir .RESB, 6, 3, none, some "1", .empty⟩ : Instruction).op =
        .dir .RESB ∨
     (⟨"RESB", .dir .RESB, 6, 3, none, some "1", .empty⟩ : Instruction).op =
        .dir .RESW) ∧
    ([(⟨"NOP", .op .NOP, 3, 2, none, none, .opcode none false⟩ : Instruction)] ≠
      ([] : List Instruction)) ∧
    group_go [⟨"RESB", .dir .RESB, 6, 3, none, some "1", .empty⟩]
        [⟨"NOP", .op .NOP, 3, 2, none, none, .opcode none false⟩] 3 =
      (group_go [] [] 0).map
        (fun gs => ([⟨"NOP", .op .NOP, 3, 2, none, none, .opcode none false⟩], 3) :: gs) :=
  ⟨Or.inl rfl, by decide,
   C6_text_record_chunking.2.1 ⟨"RESB", .dir .RESB, 6, 3, none, some "1", .empty⟩
     [] [⟨"NOP", .op .NOP, 3, 2, none, none, .opcode none false⟩] 3
     (Or.inl rfl) (by decide)⟩

/-- When `emitOne` succeeds on an instruction carrying an operand symbol, the
symbol is present in the symbol table. -/
theorem emitOne_symbol_defined (symtab : List (String × Int)) (i : Instruction)
    (r : ObjProgRecord) (ms : List ObjProgRecord) (sym : String)
    (h : emitOne symtab i = .ok (r, ms)) (hsym : i.ctx.symbol = some sym) :
    ∃ addr, dictLookup symtab sym = some addr := by
  obtain ⟨nm, op, loc, ln, lb, opn, ctx⟩ := i
  cases ctx with
  | opcode s idx =>
    have hs : s = some sym := hsym
    subst hs
    cases op with
    | op m =>
      cases hd : dictLookup symtab sym with
      | none =>
        have hred : emitOne symtab
            ⟨nm, .op m, loc, ln, lb, opn, .opcode (some sym) idx⟩ =
            (match dictLookup symtab sym with
             | none => (.error "Symbol not found in the symbol table" :
                 Except String (ObjProgRecord × List ObjProgRecord))
             | some address =>
               match UInt24.from_int (loc + 1) with
               | .error e => .error e
               | .ok modAddr =>
                 .ok (.sic (SICFormatObjectCode.create m address idx),
                      [.modification modAddr 2])) := rfl
        rw [hred, hd] at h
        exact Except.noConfusion (show (Except.error
          "Symbol not found in the symbol table" :
          Except String (ObjProgRecord × List ObjProgRecord)) = .ok (r, ms) from h)
      | some a => exact ⟨a, rfl⟩
    | dir d =>
      cases d <;>
        exact Except.noConfusion (show (Except.error _ :
          Except String (ObjProgRecord × List ObjProgRecord)) = .ok (r, ms) from h)
  | empty => exact Option.noConfusion hsym
  | start a b => exact Option.noConfusion hsym
  | endCtx a => exact Option.noConfusion hsym
  | byte v => exact Option.noConfusion hsym
  | word v => exact Option.noConfusion hsym

/-- When a whole chunk emits successfully, every instruction in it emitted
successfully. -/
theorem emitChunk_mem (symtab : List (String × Int)) (chunk : List Instruction) :
    ∀ out, emitChunk symtab chunk = .ok out →
      ∀ i ∈ chunk, ∃ r ms, emitOne symtab i = .ok (r, ms) := by
  induction chunk with
  | nil => intro out h i hi; exact absurd hi (List.not_mem_nil i)
  | cons j rest ih =>
    intro out h i hi
    have hred : emitChunk symtab (j :: rest) =
        (match emitOne symtab j with
         | .error e => (.error e :
             Except String (List ObjProgRecord × List ObjProgRecord))
         | .ok (r, ms) =>
           match emitChunk symtab rest with
           | .error e => .error e
           | .ok (rs, ms') => .ok (r :: rs, ms ++ ms')) := rfl
    rw [hred] at h
    cases he : emitOne symtab j with
    | error e =>
      rw [he] at h
      exact Except.noConfusion (show (Except.error e :
        Except String (List ObjProgRecord × List ObjProgRecord)) = .ok out from h)
    | ok p =>
      obtain ⟨r, ms⟩ := p
      rcases List.mem_cons.mp hi with rfl | hi'
      · exact ⟨r, ms, he⟩
      · rw [he] at h
        have h2 : (match emitChunk symtab rest with
           | .error e => (.error e :
               Except String (List ObjProgRecord × List ObjProgRecord))
           | .ok (rs, ms') => .ok (r :: rs, ms ++ ms')) = .ok out := h
        cases hr : emitChunk symtab rest with
        | error e =>
          rw [hr] at h2
          exact Except.noConfusion (show (Except.error e :
            Except String (List ObjProgRecord × List ObjProgRecord)) = .ok out from h2)
        | ok q => exact ih q hr i hi'

/-- When all chunks emit successfully, each chunk emitted successfully. -/
theorem emitChunks_mem (symtab : List (String × Int))
    (gs : List (List Instruction × Nat)) :
    ∀ out, emitChunks symtab gs = .ok out →
      ∀ p ∈ gs, ∃ o, emitChunk symtab p.1 = .ok o := by
  induction gs with
  | nil => intro out h p hp; exact absurd hp (List.not_mem_nil p)
  | cons g rest ih =>
    obtain ⟨grouped, tlen⟩ := g
    intro out h p hp
    have hred : emitChunks symtab ((grouped, tlen) :: rest) =
        (match grouped.head? with
         | none => (.error "IndexError: list index out of range" :
             Except String (List ObjProgRecord × List ObjProgRecord))
         | some g0 =>
           match UInt24.from_int g0.location with
           | .error e => .error e
           | .ok tstart =>
             match emitChunk symtab grouped with
             | .error e => .error e
             | .ok (rs, ms) =>
               match emitChunks symtab rest with
               | .error e => .error e
               | .ok (rs', ms') =>
                 .ok ((.text tstart (tlen % 256) :: rs) ++ rs', ms ++ ms')) := rfl
    rw [hred] at h
    cases hh : grouped.head? with
    | none =>
      rw [hh] at h
      exact Except.noConfusion (show (Except.error
        "IndexError: list index out of range" :
        Except String (List ObjProgRecord × List ObjProgRecord)) = .ok out from h)
    | some g0 =>
      rw [hh] at h
      have h1 : ((match UInt24.from_int g0.location with
         | .error e => .error e
         | .ok tstart =>
           match emitChunk symtab grouped with
           | .error e => .error e
           | .ok (rs, ms) =>
             match emitChunks symtab rest with
             | .error e => .error e
             | .ok (rs', ms') =>
               .ok ((.text tstart (tlen % 256) :: rs) ++ rs', ms ++ ms')) :
          Except String (List ObjProgRecord × List ObjProgRecord)) =
          .ok out := h
      cases hu : UInt24.from_int g0.location with
      | error e =>
        rw [hu] at h1
        exact Except.noConfusion (show (Except.error e :
          Except String (List ObjProgRecord × List ObjProgRecord)) = .ok out from h1)
      | ok tstart =>
        rw [hu] at h1
        have h2 : ((match emitChunk symtab grouped with
           | .error e => .error e
           | .ok (rs, ms) =>
             match emitChunks symtab rest with
             | .error e => .error e
             | .ok (rs', ms') =>
               .ok ((.text tstart (tlen % 256) :: rs) ++ rs', ms ++ ms')) :
            Except String (List ObjProgRecord × List ObjProgRecord)) =
            .ok out := h1
        cases hc : emitChunk symtab grouped with
        | error e =>
          rw [hc] at h2
          exact Except.noConfusion (show (Except.error e :
            Except String (List ObjProgRecord × List ObjProgRecord)) = .ok out from h2)
        | ok o =>
          rcases List.mem_cons.mp hp with rfl | hp'
          · exact ⟨o, hc⟩
          · obtain ⟨rs, ms⟩ := o
            rw [hc] at h2
            have h3 : ((match emitChunks symtab rest with
               | .error e => .error e
               | .ok (rs', ms') =>
                 .ok ((.text tstart (tlen % 256) :: rs) ++ rs', ms ++ ms')) :
                Except String (List ObjProgRecord × List ObjProgRecord)) =
                .ok out := h2
            cases hrec : emitChunks symtab rest with
            | error e =>
              rw [hrec] at h3
              exact Except.noConfusion (show (Except.error e :
                Except String (List ObjProgRecord × List ObjProgRecord)) =
                .ok out from h3)
            | ok q => exact ih q hrec p hp'

/-- A successful `create_object_program` run implies its internal
`emitChunks` pass over the grouped middle instructions succeeded. -/
theorem create_object_program_emitChunks_ok (symtab : List (String × Int))
    (instructions : List Instruction) (plen : Int) (out : List ObjProgRecord)
    (h : create_object_program symtab instructions plen = .ok out)
    (gs : List (List Instruction × Nat))
    (hg : group_instructions_for_text_record
      ((instructions.drop 1).dropLast) = .ok gs) :
    ∃ o, emitChunks symtab gs = .ok o := by
  simp only [create_object_program] at h
  repeat' split at h
  all_goals try exact Except.noConfusion h
  rename_i x2 groups heq2 x1 rs ms' heq1 x0 v0 heq0
  rw [hg] at heq2
  injection heq2 with he
  subst he
  exact ⟨(rs, ms'), heq1⟩

/-- C8 counterexample: address 0 is NOT exclusive to operand-less
instructions.  A `LDA A` whose symbol `A` is defined at address 0 (a label on
the first instruction of a program started at address 0) emits successfully
and encodes operand address 0 — the emitted instruction word is identical to
the one an operand-less instruction would get. -/
theorem C8_defined_symbol_zero_counterexample :
    (⟨"LDA", .op .LDA, 0, 2, some "A", some "A",
        .opcode (some "A") false⟩ : Instruction).operand = some "A" ∧
    create_object_program [("A", 0)]
        [⟨"START", .dir .START, 0, 1, some "BOOT", some "0000",
            .start "BOOT" 0⟩,
         ⟨"LDA", .op .LDA, 0, 2, some "A", some "A", .opcode (some "A") false⟩,
         ⟨"END", .dir .«END», 3, 3, none, none, .endCtx 0⟩] 3 =
      .ok [.header [66, 79, 79, 84, 0, 0] ⟨0, 0, 0⟩ ⟨0, 0, 3⟩,
           .text ⟨0, 0, 0⟩ 3,
           .sic (SICFormatObjectCode.create .LDA 0 false),
           .modification ⟨0, 0, 1⟩ 2,
           .endR ⟨0, 0, 0⟩] ∧
    (SICFormatObjectCode.create .LDA 0 false).address = 0 := by
  exact ⟨rfl, by decide, by decide⟩

/-- C8 (amended): an opcode instruction whose operand symbol is missing from
the symbol table makes `emitOne` — and hence object-program emission — fail
with the undefined-symbol error; an opcode instruction with no symbol encodes
address 0; a successful emission of a symbolic-operand instruction always
looks the symbol up and encodes the symbol's address (which may itself be 0,
so address 0 is not exclusive to operand-less instructions); and whenever
`create_object_program` succeeds, every symbolic operand among the grouped
instructions is present in the symbol table. -/
theorem C8_undefined_symbol_error :
    (∀ (symtab : List (String × Int)) (i : Instruction) (m : Mnemonic)
       (sym : String),
      i.op = .op m → i.ctx.symbol = some sym → dictLookup symtab sym = none →
      emitOne symtab i = .error "Symbol not found in the symbol table") ∧
    (∀ (symtab : List (String × Int)) (i : Instruction) (m : Mnemonic),
      i.op = .op m → i.ctx.symbol = none →
      emitOne symtab i =
        .ok (.sic (SICFormatObjectCode.create m 0 i.ctx.indexedFlag), [])) ∧
    (∀ (symtab : List (String × Int)) (i : Instruction) (m : Mnemonic)
       (sym : String) (r : ObjProgRecord) (ms : List ObjProgRecord),
      i.op = .op m → i.ctx.symbol = some sym → emitOne symtab i = .ok (r, ms) →
      ∃ addr, dictLookup symtab sym = some addr ∧
        r = .sic (SICFormatObjectCode.create m addr i.ctx.indexedFlag)) ∧
    (∀ (symtab : List (String × Int)) (instructions : List Instruction)
       (plen : Int) (out : List ObjProgRecord)
       (gs : List (List Instruction × Nat)),
      create_object_program symtab instructions plen = .ok out →
      group_instructions_for_text_record
        ((instructions.drop 1).dropLast) = .ok gs →
      ∀ p ∈ gs, ∀ i ∈ p.1, ∀ sym, i.ctx.symbol = some sym →
        ∃ addr, dictLookup symtab sym = some addr) := by
  refine ⟨?_, ?_, ?_, ?_⟩
  · intro symtab i m sym hop hsym hd
    obtain ⟨nm, op, loc, ln, lb, opn, ctx⟩ := i
    have hop' : op = .op m := hop
    subst hop'
    cases ctx with
    | opcode s idx =>
      have hs : s = some sym := hsym
      subst hs
      have hred : emitOne symtab
          ⟨nm, .op m, loc, ln, lb, opn, .opcode (some sym) idx⟩ =
          (match dictLookup symtab sym with
           | none => (.error "Symbol not found in the symbol table" :
               Except String (ObjProgRecord × List ObjProgRecord))
           | some address =>
             match UInt24.from_int (loc + 1) with
             | .error e => .error e
             | .ok modAddr =>
               .ok (.sic (SICFormatObjectCode.create m address idx),
                    [.modification modAddr 2])) := rfl
      rw [hred, hd]
    | empty => exact Option.noConfusion hsym
    | start a b => exact Option.noConfusion hsym
    | endCtx a => exact Option.noConfusion hsym
    | byte v => exact Option.noConfusion hsym
    | word v => exact Option.noConfusion hsym
  · intro symtab i m hop hsym
    obtain ⟨nm, op, loc, ln, lb, opn, ctx⟩ := i
    have hop' : op = .op m := hop
    subst hop'
    cases ctx with
    | opcode s idx =>
      have hs : s = none := hsym
      subst hs
      rfl
    | empty => rfl
    | start a b => rfl
    | endCtx a => rfl
    | byte v => rfl
    | word v => rfl
  · intro symtab i m sym r ms hop hsym h
    obtain ⟨nm, op, loc, ln, lb, opn, ctx⟩ := i
    have hop' : op = .op m := hop
    subst hop'
    cases ctx with
    | opcode s idx =>
      have hs : s = some sym := hsym
      subst hs
      have hred : emitOne symtab
          ⟨nm, .op m, loc, ln, lb, opn, .opcode (some sym) idx⟩ =
          (match dictLookup symtab sym with
           | none => (.error "Symbol not found in the symbol table" :
               Except String (ObjProgRecord × List ObjProgRecord))
           | some address =>
             match UInt24.from_int (loc + 1) with
             | .error e => .error e
             | .ok modAddr =>
               .ok (.sic (SICFormatObjectCode.create m address idx),
                    [.modification modAddr 2])) := rfl
      rw [hred] at h
      cases hd : dictLookup symtab sym with
      | none =>
        rw [hd] at h
        exact Except.noConfusion (show (Except.error
          "Symbol not found in the symbol table" :
          Except String (ObjProgRecord × List ObjProgRecord)) = .ok (r, ms) from h)
      | some addr =>
        rw [hd] at h
        have h1 : ((match UInt24.from_int (loc + 1) with
           | .error e => .error e
           | .ok modAddr =>
             .ok (.sic (SICFormatObjectCode.create m addr idx),
                  [.modification modAddr 2])) :
            Except String (ObjProgRecord × List ObjProgRecord)) = .ok (r, ms) := h
        cases hu : UInt24.from_int (loc + 1) with
        | error e =>
          rw [hu] at h1
          exact Except.noConfusion (show (Except.error e :
            Except String (ObjProgRecord × List ObjProgRecord)) = .ok (r, ms) from h1)
        | ok modAddr =>
          rw [hu] at h1
          have h2 : (Except.ok (ObjProgRecord.sic
              (SICFormatObjectCode.create m addr idx),
              [ObjProgRecord.modification modAddr 2]) :
              Except String (ObjProgRecord × List ObjProgRecord)) = .ok (r, ms) := h1
          injection h2 with hp
          exact ⟨addr, rfl, (congrArg Prod.fst hp).symm⟩
    | empty => exact Option.noConfusion hsym
    | start a b => exact Option.noConfusion hsym
    | endCtx a => exact Option.noConfusion hsym
    | byte v => exact Option.noConfusion hsym
    | word v => exact Option.noConfusion hsym
  · intro symtab instructions plen out gs h hg p hp i hi sym hsym
    obtain ⟨o, ho⟩ :=
      create_object_program_emitChunks_ok symtab instructions plen out h gs hg
    obtain ⟨oc, hoc⟩ := emitChunks_mem symtab gs o ho p hp
    obtain ⟨r, ms, hrm⟩ := emitChunk_mem symtab p.1 oc hoc i hi
    exact emitOne_symbol_defined symtab i r ms sym hrm hsym

/-- Witness for C8: `J NOTDEFINED` against an empty symbol table fails with
the undefined-symbol error. -/
theorem C8_undefined_symbol_error_witness :
    (⟨"J", .op .J, 3, 2, none, some "NOTDEFINED",
        .opcode (some "NOTDEFINED") false⟩ : Instruction).op = .op .J ∧
    (⟨"J", .op .J, 3, 2, none, some "NOTDEFINED",
        .opcode (some "NOTDEFINED") false⟩ : Instruction).ctx.symbol =
      some "NOTDEFINED" ∧
    dictLookup [] "NOTDEFINED" = none ∧
    emitOne [] ⟨"J", .op .J, 3, 2, none, some "NOTDEFINED",
        .opcode (some "NOTDEFINED") false⟩ =
      .error "Symbol not found in the symbol table" :=
  ⟨rfl, rfl, rfl,
   C8_undefined_symbol_error.1 []
     ⟨"J", .op .J, 3, 2, none, some "NOTDEFINED",
       .opcode (some "NOTDEFINED") false⟩ .J "NOTDEFINED" rfl rfl rfl⟩

end Wsic
